import Mathlib

/-
Shallow embedding of the incremental tri-color mark-and-sweep collector in
src/gc.rs (GcArena, GcTracer, Gc, Rgc, GcFlags, RootCount).

Modelling conventions, each justified against the source:

* Cells are identified by natural numbers (the heap address of the GcBox).
  The field boxes of the arena maps every id to its header and payload data;
  the ghost field freed records ids whose box has been deallocated by
  Box::from_raw in the sweep phase.

* The intrusive singly linked all-list (arena.all, GcBox.next) is
  represented by two Lean lists: sweepList is the suffix of the all-list
  hanging from the sweep cursor (arena.sweep), and processed is the part of
  the all-list strictly before that cursor, in list order; the whole
  all-list is processed ++ sweepList.  Outside the sweep phase the cursor
  is null, sweepList is empty and processed is the whole list.  Unlinking
  the cell under the cursor (via sweep_prev.next, or by moving the all head
  when sweep_prev is null, where the source asserts all == sweep, that is
  processed = []) removes exactly the head of sweepList.  sweepPrev tracks
  the identity of the sweep_prev pointer, which the source consults in
  allocate and resets at the end of a sweep.

* The gray VecDeque is a Lean list: push_front is cons, pop_front takes the
  head, push_back appends at the right end.

* f64 quantities (allocation_debt, the work budget, pause_factor,
  timing_factor) are modelled by exact rationals; f64::INFINITY, used by
  collect_garbage, is modelled by the none case of Option Rat.  The final
  debt update (debt - work + work_left).max(0.0) evaluates, for an infinite
  budget, to NaN.max(0.0) = 0.0 in Rust; the model returns 0 there.
  The f64 round here is half away from zero and the usize cast saturates;
  ratToUsize reproduces both on rationals.

* GcFlags is the exact bit-packed byte with the literal masks of the
  source, including the `|` (rather than `&`) in needs_trace.

* A user GcObject impl is summarised by the data the collector can observe:
  its byte size (mem::size_of_val of the whole box), the list of cell ids
  its trace method reports via tracer.trace, and whether trace returns true
  (traceOk); a blocked trace reports nothing, matching an impl that fails
  its borrow before touching children.

* do_collection is a while loop; the loop body is runIter, executed under a
  fuel bound by loopAux, which returns none when the fuel is exhausted.
  All theorems about collection results hold for every fuel, and the
  divergence of the loop on a particular input is itself provable as a
  result about every fuel.
-/

namespace LusterGc

/-- Tri-color state stored in the low two bits of the flag byte. -/
inductive GcColor : Type
  | White
  | LightGray
  | DarkGray
  | Black
deriving DecidableEq, Repr

/-- Collector phase of the arena. -/
inductive GcPhase : Type
  | Sleeping
  | Propagating
  | Sweeping
deriving DecidableEq, Repr

open GcColor GcPhase

/-- Numeric value of a color in the low two bits, as in GcFlags::set_color. -/
def colorBits : GcColor → Nat
  | White => 0x0
  | LightGray => 0x1
  | DarkGray => 0x2
  | Black => 0x3

/-- GcFlags::color: read the low two bits of the flag byte.  The source
match has an unreachable arm for values above 3; land 3 never produces
them, and the wildcard arm of this match is never hit for the same
reason. -/
def flagsColor (f : Nat) : GcColor :=
  match f &&& 0x3 with
  | 0x0 => White
  | 0x1 => LightGray
  | 0x2 => DarkGray
  | _ => Black

/-- GcFlags::set_color: keep the bits above the low two (land with the
complement of 0x3, which on a byte is 0xFC) and or in the color bits. -/
def flagsSetColor (f : Nat) (c : GcColor) : Nat :=
  (f &&& 0xFC) ||| colorBits c

/-- GcFlags::is_detached: bit 0x4. -/
def flagsIsDetached (f : Nat) : Bool :=
  f &&& 0x4 != 0x0

/-- GcFlags::set_detached. -/
def flagsSetDetached (f : Nat) (d : Bool) : Nat :=
  (f &&& 0xFB) ||| (if d then 0x4 else 0x0)

/-- GcFlags::needs_trace, verbatim from the source: the expression is
flag lor 0x8 != 0, with a bitwise or where the comments and the fast-path
rationale call for a bitwise and.  The or makes the result true for every
byte. -/
def flagsNeedsTrace (f : Nat) : Bool :=
  f ||| 0x8 != 0x0

/-- GcFlags::set_needs_trace: store bit 0x8. -/
def flagsSetNeedsTrace (f : Nat) (b : Bool) : Nat :=
  (f &&& 0xF7) ||| (if b then 0x8 else 0x0)

/-- One managed cell: the GcBox header (flags byte, root count) together
with the collector-visible summary of the user payload: its total box size
in bytes, the ids its trace call reports, and whether trace succeeds. -/
structure GcBox where
  flags : Nat
  rootCount : Nat
  size : Nat
  children : List Nat
  traceOk : Bool
deriving DecidableEq, Repr

instance : Inhabited GcBox := ⟨⟨0, 0, 0, [], true⟩⟩

/-- GcParameters; the two factors are f64, modelled by rationals. -/
structure GcParams where
  pauseFactor : ℚ
  timingFactor : ℚ
  collectionGranularity : Nat
  minSleep : Nat

/-- GcParameters::default(). -/
def defaultParams : GcParams :=
  { pauseFactor := 1 / 2
    timingFactor := 3 / 2
    collectionGranularity := 1024
    minSleep := 4096 }

/-- The GcArena state.  processed ++ sweepList is the all-list; see the
header comment for the representation of the cursors. -/
structure GcArena where
  params : GcParams
  phase : GcPhase
  totalAllocated : Nat
  rememberedSize : Nat
  wakeupTotal : Nat
  allocationDebt : ℚ
  granularityTimer : Nat
  processed : List Nat
  sweepList : List Nat
  sweepPrev : Option Nat
  gray : List Nat
  boxes : Nat → GcBox
  freed : List Nat

/-- The all-list of the arena, head first. -/
def allList (s : GcArena) : List Nat :=
  s.processed ++ s.sweepList

/-- Color of the cell with a given id. -/
def boxColor (s : GcArena) (c : Nat) : GcColor :=
  flagsColor (s.boxes c).flags

/-- Update the box of one id in place. -/
def updBox (s : GcArena) (c : Nat) (f : GcBox → GcBox) : GcArena :=
  { s with boxes := fun i => if i = c then f (s.boxes i) else s.boxes i }

/-- Set the color of one cell, as gc_box.flags.set_color. -/
def setBoxColor (s : GcArena) (c : Nat) (col : GcColor) : GcArena :=
  updBox s c (fun b => { b with flags := flagsSetColor b.flags col })

/-- GcArena::new. -/
def initArena (p : GcParams) : GcArena :=
  { params := p
    phase := Sleeping
    totalAllocated := 0
    rememberedSize := 0
    wakeupTotal := p.minSleep
    allocationDebt := 0
    granularityTimer := p.collectionGranularity
    processed := []
    sweepList := []
    sweepPrev := none
    gray := []
    boxes := fun _ => default
    freed := [] }

/-- GcTracer::trace on a child pointer: Black and DarkGray are no-ops, a
LightGray cell is promoted to DarkGray in place, and a White cell consults
flags.needs_trace: true promotes to DarkGray and pushes to the front of
gray, false promotes directly to Black without enqueueing.  Because of the
or in flagsNeedsTrace the false branch is dead code, faithfully kept. -/
def tracerTrace (s : GcArena) (c : Nat) : GcArena :=
  match boxColor s c with
  | Black => s
  | DarkGray => s
  | LightGray => setBoxColor s c DarkGray
  | White =>
    if flagsNeedsTrace (s.boxes c).flags then
      let s1 := setBoxColor s c DarkGray
      { s1 with gray := c :: s1.gray }
    else
      setBoxColor s c Black

/-- The user trace call on a cell: call tracer.trace on every held pointer
in order.  Used only when traceOk is true; a blocked trace reports
nothing. -/
def traceObject (s : GcArena) (c : Nat) : GcArena :=
  (s.boxes c).children.foldl tracerTrace s

/-- GcArena::root: increment the root count (RootCount::increment; the
overflow assert is not modelled, counts are unbounded here) and, if the
cell is White, promote it to LightGray and push it to the back of gray. -/
def rootOp (s : GcArena) (c : Nat) : GcArena :=
  let s1 := updBox s c (fun b => { b with rootCount := b.rootCount + 1 })
  if boxColor s1 c = White then
    let s2 := setBoxColor s1 c LightGray
    { s2 with gray := s2.gray ++ [c] }
  else
    s1

/-- Rgc::clone: increment the root count. -/
def rgcClone (s : GcArena) (c : Nat) : GcArena :=
  updBox s c (fun b => { b with rootCount := b.rootCount + 1 })

/-- Rgc::drop: decrement the root count; if the cell is detached and this
was the last root, free the box.  While the arena is alive detached is
never set, so the free branch is inert in arena executions. -/
def rgcDrop (s : GcArena) (c : Nat) : GcArena :=
  let s1 := updBox s c (fun b => { b with rootCount := b.rootCount - 1 })
  if (s1.boxes c).rootCount = 0 ∧ flagsIsDetached (s1.boxes c).flags then
    { s1 with freed := c :: s1.freed }
  else
    s1

/-- GcArena::write_barrier: only during Propagating and only on a Black
cell, demote it to DarkGray and push it to the back of gray; otherwise do
nothing at all. -/
def writeBarrier (s : GcArena) (c : Nat) : GcArena :=
  if s.phase = Propagating ∧ boxColor s c = Black then
    let s1 := setBoxColor s c DarkGray
    { s1 with gray := s1.gray ++ [c] }
  else
    s

/-- Work budget: none is f64::INFINITY, some q a finite budget. -/
def wlPos : Option ℚ → Bool
  | none => true
  | some q => decide (0 < q)

/-- Subtract a byte count from the remaining work. -/
def wlSub : Option ℚ → Nat → Option ℚ
  | none, _ => none
  | some q, n => some (q - (n : ℚ))

/-- usize::MAX on the 64-bit target. -/
def usizeMax : Nat := 2 ^ 64 - 1

/-- The
(x * pause_factor).round().min(usize::MAX as f64) as usize
expression of the source on a rational: round half away from zero equals
round half up on nonnegative input, a negative result saturates to 0 as
the Rust float-to-int cast does, and the min clamp saturates above. -/
def ratToUsize (q : ℚ) : Nat :=
  min (round q).toNat usizeMax

/-- Transition from Propagating to Sweeping: sweep := all (the cursor
suffix becomes the whole all-list and nothing is before it), and
remembered_size := 0.  The source does not touch sweep_prev here. -/
def toSweep (s : GcArena) : GcArena :=
  { s with phase := Sweeping
           sweepList := s.processed ++ s.sweepList
           processed := []
           rememberedSize := 0 }

/-- Sweep of a White cell c under the cursor, whose next cells are rest:
unlink it from the all-list (through sweep_prev.next when sweep_prev is
non-null, else by moving the all head, in which case the source asserts
all == sweep, so nothing precedes the cursor), subtract its size from
total_allocated, and free the box. -/
def freeCell (s : GcArena) (c : Nat) (rest : List Nat) : GcArena :=
  { s with processed := if s.sweepPrev.isSome then s.processed else []
           sweepList := rest
           totalAllocated := s.totalAllocated - (s.boxes c).size
           freed := c :: s.freed }

/-- Sweep of a non-White cell c under the cursor: keep it, set sweep_prev
to it, add its size to remembered_size, then demote it to LightGray and
push it to the back of gray when rooted, else demote it to White. -/
def keepCell (s : GcArena) (c : Nat) (rest : List Nat) : GcArena :=
  let s1 := { s with processed := s.processed ++ [c]
                     sweepList := rest
                     sweepPrev := some c
                     rememberedSize := s.rememberedSize + (s.boxes c).size }
  if 0 < (s1.boxes c).rootCount then
    let s2 := setBoxColor s1 c LightGray
    { s2 with gray := s2.gray ++ [c] }
  else
    setBoxColor s1 c White

/-- End of the sweep: the cursor is null, so clear sweep_prev, go to
Sleeping and set
wakeup_total := total_allocated
  + max(min_sleep, clamp(round(remembered_size * pause_factor))). -/
def endSweep (s : GcArena) : GcArena :=
  { s with sweepPrev := none
           phase := Sleeping
           wakeupTotal := s.totalAllocated +
             Nat.max (ratToUsize ((s.rememberedSize : ℚ) * s.params.pauseFactor))
               s.params.minSleep }

/-- Result of one iteration of the do_collection loop: stop ends the loop
(break, or the Sleeping arm), next continues with updated state, remaining
work and blocked counter. -/
inductive IterOut : Type
  | stop (s : GcArena) (wl : Option ℚ)
  | next (s : GcArena) (wl : Option ℚ) (bc : Nat)

/-- One iteration of the do_collection while loop, dispatching on the
phase exactly as the source match does.  In the Propagating arm the tests
read the header of the popped cell, which the pop itself does not change,
so they are stated on s.  A popped cell that is DarkGray or rooted is
traced: on success it turns Black, its
size comes off the work budget and the blocked counter resets; on failure
it is pushed to the back of gray, the counter is incremented and, when the
counter equals the new queue length, the loop breaks.  A popped cell that
is neither DarkGray nor rooted is simply dropped, with no change to its
flags.  An empty queue moves to Sweeping.  The Sweeping arm advances the
cursor and frees or keeps the cell; an exhausted cursor ends the sweep. -/
def runIter (s : GcArena) (wl : Option ℚ) (bc : Nat) : IterOut :=
  match s.phase with
  | Sleeping => IterOut.stop s wl
  | Propagating =>
    match s.gray with
    | [] => IterOut.next (toSweep s) wl bc
    | c :: rest =>
      if boxColor s c = DarkGray ∨ 0 < (s.boxes c).rootCount then
        if (s.boxes c).traceOk then
          IterOut.next (setBoxColor (traceObject { s with gray := rest } c) c Black)
            (wlSub wl (s.boxes c).size) 0
        else
          if bc + 1 = (rest ++ [c]).length then
            IterOut.stop { s with gray := rest ++ [c] } wl
          else
            IterOut.next { s with gray := rest ++ [c] } wl (bc + 1)
      else
        IterOut.next { s with gray := rest } wl bc
  | Sweeping =>
    match s.sweepList with
    | [] => IterOut.next (endSweep s) wl bc
    | c :: rest =>
      if boxColor s c = White then
        IterOut.next (freeCell s c rest) (wlSub wl (s.boxes c).size) bc
      else
        IterOut.next (keepCell s c rest) wl bc

/-- The do_collection while loop under a fuel bound: none means the fuel
ran out before the loop exited.  The loop runs while work_left > 0.0. -/
def loopAux : Nat → GcArena → Option ℚ → Nat → Option (GcArena × Option ℚ)
  | 0, _, _, _ => none
  | fuel + 1, s, wl, bc =>
    if wlPos wl then
      match runIter s wl bc with
      | IterOut.stop s2 wl2 => some (s2, wl2)
      | IterOut.next s2 wl2 bc2 => loopAux fuel s2 wl2 bc2
    else
      some (s, wl)

/-- The debt adjustment after the loop: on Sleeping the debt is zeroed;
otherwise it becomes (debt - work + work_left).max(0.0), which for the
infinite budget of collect_garbage is NaN.max(0.0) = 0.0 in f64. -/
def finishDebt (s : GcArena) (work wl : Option ℚ) : GcArena :=
  if s.phase = Sleeping then
    { s with allocationDebt := 0 }
  else
    match work, wl with
    | some w, some l => { s with allocationDebt := max (s.allocationDebt - w + l) 0 }
    | _, _ => { s with allocationDebt := 0 }

/-- GcArena::do_collection with a given work budget. -/
def doCollection (fuel : Nat) (s : GcArena) (work : Option ℚ) : Option GcArena :=
  (loopAux fuel s work 0).map (fun p => finishDebt p.1 work p.2)

/-- The phase bump at the top of collect_garbage. -/
def gcWake (s : GcArena) : GcArena :=
  if s.phase = Sleeping then { s with phase := Propagating } else s

/-- GcArena::collect_garbage: wake a sleeping collector, then run
do_collection with an infinite budget. -/
def collectGarbage (fuel : Nat) (s : GcArena) : Option GcArena :=
  doCollection fuel (gcWake s) none

/-- The tail of allocate: create the box (flags start at 0, that is White,
then set_needs_trace stores the static bit of T), link it at the head of
the all-list and, during a sweep with a null sweep_prev, point sweep_prev
at it. -/
def linkCell (s : GcArena) (id sz : Nat) (nt : Bool) (ch : List Nat)
    (tOk : Bool) : GcArena :=
  let box : GcBox :=
    { flags := flagsSetNeedsTrace 0 nt
      rootCount := 0
      size := sz
      children := ch
      traceOk := tOk }
  let s1 := { s with boxes := fun i => if i = id then box else s.boxes i
                     processed := id :: s.processed }
  if s1.phase = Sweeping ∧ s1.sweepPrev = none then
    { s1 with sweepPrev := some id }
  else
    s1

/-- GcArena::allocate of a value of box size sz for a fresh id: add the
size to total_allocated, wake the collector when the wakeup threshold is
exceeded, and while not Sleeping accrue debt
(size + size / timing_factor) and run a collection slice with the debt as
budget once the granularity timer fills up; finally link the new White
cell.  Returns none only if the inner collection slice exhausts fuel. -/
def allocate (fuel : Nat) (s : GcArena) (id sz : Nat) (nt : Bool)
    (ch : List Nat) (tOk : Bool) : Option GcArena :=
  let s1 := { s with totalAllocated := s.totalAllocated + sz }
  let s2 := if s1.phase = Sleeping ∧ s1.wakeupTotal < s1.totalAllocated then
      { s1 with phase := Propagating }
    else
      s1
  if s2.phase = Sleeping then
    some (linkCell s2 id sz nt ch tOk)
  else
    let s3 := { s2 with allocationDebt :=
      s2.allocationDebt + (sz : ℚ) + (sz : ℚ) / s2.params.timingFactor }
    if s3.params.collectionGranularity ≤ s3.granularityTimer + sz then
      match doCollection fuel { s3 with granularityTimer := 0 }
          (some s3.allocationDebt) with
      | none => none
      | some s4 => some (linkCell s4 id sz nt ch tOk)
    else
      some (linkCell { s3 with granularityTimer := s3.granularityTimer + sz }
        id sz nt ch tOk)

/-! Basic facts about the flag byte. -/

theorem flagsNeedsTrace_always (f : Nat) : flagsNeedsTrace f = true := by
  simp only [flagsNeedsTrace, ne_eq, bne_iff_ne]
  intro h
  have h3 := congrArg (Nat.testBit · 3) h
  simp only [Nat.testBit_lor] at h3
  have h8 : Nat.testBit 8 3 = true := by decide
  have hz : Nat.testBit 0 3 = false := by decide
  rw [h8, hz] at h3
  simp at h3

theorem colorBits_lt (c : GcColor) : colorBits c < 4 := by
  cases c <;> decide

theorem land_lor_low (f b : Nat) (hb : b < 4) : ((f &&& 0xFC) ||| b) &&& 0x3 = b := by
  apply Nat.eq_of_testBit_eq
  intro i
  simp only [Nat.testBit_land, Nat.testBit_lor]
  have hpow : ∀ j : Nat, (4 : Nat) ≤ 2 ^ (j + 2) := by
    intro j
    calc (4 : Nat) = 2 ^ 2 := by norm_num
    _ ≤ 2 ^ (j + 2) := Nat.pow_le_pow_right (by norm_num) (by omega)
  match i with
  | 0 => simp [Nat.testBit]
  | 1 =>
    have hc : Nat.testBit 0xFC 1 = false := by decide
    have h3 : Nat.testBit 0x3 1 = true := by decide
    simp [hc, h3]
  | (j + 2) =>
    have h1 : Nat.testBit 0x3 (j + 2) = false :=
      Nat.testBit_eq_false_of_lt (lt_of_lt_of_le (by norm_num) (hpow j))
    have h2 : Nat.testBit b (j + 2) = false :=
      Nat.testBit_eq_false_of_lt (lt_of_lt_of_le hb (hpow j))
    simp [h1, h2]

theorem flagsColor_setColor (f : Nat) (c : GcColor) :
    flagsColor (flagsSetColor f c) = c := by
  unfold flagsColor flagsSetColor
  rw [land_lor_low f (colorBits c) (colorBits_lt c)]
  cases c <;> rfl

/-! Frame lemmas: which fields each mutator leaves untouched. -/

@[simp] theorem updBox_phase (s : GcArena) (c : Nat) (f : GcBox → GcBox) :
    (updBox s c f).phase = s.phase := rfl

@[simp] theorem updBox_gray (s : GcArena) (c : Nat) (f : GcBox → GcBox) :
    (updBox s c f).gray = s.gray := rfl

@[simp] theorem updBox_processed (s : GcArena) (c : Nat) (f : GcBox → GcBox) :
    (updBox s c f).processed = s.processed := rfl

@[simp] theorem updBox_sweepList (s : GcArena) (c : Nat) (f : GcBox → GcBox) :
    (updBox s c f).sweepList = s.sweepList := rfl

@[simp] theorem updBox_sweepPrev (s : GcArena) (c : Nat) (f : GcBox → GcBox) :
    (updBox s c f).sweepPrev = s.sweepPrev := rfl

@[simp] theorem updBox_totalAllocated (s : GcArena) (c : Nat) (f : GcBox → GcBox) :
    (updBox s c f).totalAllocated = s.totalAllocated := rfl

@[simp] theorem updBox_rememberedSize (s : GcArena) (c : Nat) (f : GcBox → GcBox) :
    (updBox s c f).rememberedSize = s.rememberedSize := rfl

@[simp] theorem updBox_freed (s : GcArena) (c : Nat) (f : GcBox → GcBox) :
    (updBox s c f).freed = s.freed := rfl

@[simp] theorem updBox_params (s : GcArena) (c : Nat) (f : GcBox → GcBox) :
    (updBox s c f).params = s.params := rfl

@[simp] theorem updBox_allList (s : GcArena) (c : Nat) (f : GcBox → GcBox) :
    allList (updBox s c f) = allList s := rfl

theorem updBox_boxes (s : GcArena) (c : Nat) (f : GcBox → GcBox) (i : Nat) :
    (updBox s c f).boxes i = if i = c then f (s.boxes c) else s.boxes i := by
  unfold updBox
  by_cases h : i = c <;> simp [h]

@[simp] theorem setBoxColor_boxes_same (s : GcArena) (c : Nat) (col : GcColor) :
    (setBoxColor s c col).boxes c =
      { s.boxes c with flags := flagsSetColor (s.boxes c).flags col } := by
  unfold setBoxColor
  rw [updBox_boxes]
  simp

@[simp] theorem setBoxColor_boxes_other (s : GcArena) (c : Nat) (col : GcColor)
    (i : Nat) (h : i ≠ c) : (setBoxColor s c col).boxes i = s.boxes i := by
  unfold setBoxColor
  rw [updBox_boxes]
  simp [h]

@[simp] theorem boxColor_setBoxColor_same (s : GcArena) (c : Nat) (col : GcColor) :
    boxColor (setBoxColor s c col) c = col := by
  unfold boxColor
  rw [setBoxColor_boxes_same]
  exact flagsColor_setColor _ _

@[simp] theorem boxColor_setBoxColor_other (s : GcArena) (c : Nat) (col : GcColor)
    (i : Nat) (h : i ≠ c) : boxColor (setBoxColor s c col) i = boxColor s i := by
  unfold boxColor
  rw [setBoxColor_boxes_other s c col i h]

@[simp] theorem setBoxColor_rootCount (s : GcArena) (c : Nat) (col : GcColor)
    (i : Nat) : ((setBoxColor s c col).boxes i).rootCount = (s.boxes i).rootCount := by
  unfold setBoxColor
  rw [updBox_boxes]
  by_cases h : i = c <;> simp [h]

@[simp] theorem setBoxColor_size (s : GcArena) (c : Nat) (col : GcColor)
    (i : Nat) : ((setBoxColor s c col).boxes i).size = (s.boxes i).size := by
  unfold setBoxColor
  rw [updBox_boxes]
  by_cases h : i = c <;> simp [h]

@[simp] theorem setBoxColor_children (s : GcArena) (c : Nat) (col : GcColor)
    (i : Nat) : ((setBoxColor s c col).boxes i).children = (s.boxes i).children := by
  unfold setBoxColor
  rw [updBox_boxes]
  by_cases h : i = c <;> simp [h]

@[simp] theorem setBoxColor_traceOk (s : GcArena) (c : Nat) (col : GcColor)
    (i : Nat) : ((setBoxColor s c col).boxes i).traceOk = (s.boxes i).traceOk := by
  unfold setBoxColor
  rw [updBox_boxes]
  by_cases h : i = c <;> simp [h]

@[simp] theorem setBoxColor_phase (s : GcArena) (c : Nat) (col : GcColor) :
    (setBoxColor s c col).phase = s.phase := rfl

@[simp] theorem setBoxColor_gray (s : GcArena) (c : Nat) (col : GcColor) :
    (setBoxColor s c col).gray = s.gray := rfl

@[simp] theorem setBoxColor_processed (s : GcArena) (c : Nat) (col : GcColor) :
    (setBoxColor s c col).processed = s.processed := rfl

@[simp] theorem setBoxColor_sweepList (s : GcArena) (c : Nat) (col : GcColor) :
    (setBoxColor s c col).sweepList = s.sweepList := rfl

@[simp] theorem setBoxColor_sweepPrev (s : GcArena) (c : Nat) (col : GcColor) :
    (setBoxColor s c col).sweepPrev = s.sweepPrev := rfl

@[simp] theorem setBoxColor_totalAllocated (s : GcArena) (c : Nat) (col : GcColor) :
    (setBoxColor s c col).totalAllocated = s.totalAllocated := rfl

@[simp] theorem setBoxColor_freed (s : GcArena) (c : Nat) (col : GcColor) :
    (setBoxColor s c col).freed = s.freed := rfl

@[simp] theorem setBoxColor_rememberedSize (s : GcArena) (c : Nat) (col : GcColor) :
    (setBoxColor s c col).rememberedSize = s.rememberedSize := rfl

@[simp] theorem setBoxColor_wakeupTotal (s : GcArena) (c : Nat) (col : GcColor) :
    (setBoxColor s c col).wakeupTotal = s.wakeupTotal := rfl

@[simp] theorem setBoxColor_params (s : GcArena) (c : Nat) (col : GcColor) :
    (setBoxColor s c col).params = s.params := rfl

@[simp] theorem updBox_wakeupTotal (s : GcArena) (c : Nat) (f : GcBox → GcBox) :
    (updBox s c f).wakeupTotal = s.wakeupTotal := rfl

@[simp] theorem setBoxColor_allList (s : GcArena) (c : Nat) (col : GcColor) :
    allList (setBoxColor s c col) = allList s := rfl

/-- Case analysis of GcTracer::trace.  Because flagsNeedsTrace is true on
every byte, the direct White-to-Black fast path never runs. -/
theorem tracerTrace_spec (s : GcArena) (c : Nat) :
    (tracerTrace s c = s ∧ (boxColor s c = Black ∨ boxColor s c = DarkGray)) ∨
    (tracerTrace s c = setBoxColor s c DarkGray ∧ boxColor s c = LightGray) ∨
    (tracerTrace s c = { setBoxColor s c DarkGray with gray := c :: s.gray } ∧
      boxColor s c = White) := by
  unfold tracerTrace
  rcases h : boxColor s c <;>
    simp [h, flagsNeedsTrace_always]

@[simp] theorem tracerTrace_phase (s : GcArena) (c : Nat) :
    (tracerTrace s c).phase = s.phase := by
  rcases tracerTrace_spec s c with ⟨h, _⟩ | ⟨h, _⟩ | ⟨h, _⟩ <;> rw [h] <;> rfl

@[simp] theorem tracerTrace_processed (s : GcArena) (c : Nat) :
    (tracerTrace s c).processed = s.processed := by
  rcases tracerTrace_spec s c with ⟨h, _⟩ | ⟨h, _⟩ | ⟨h, _⟩ <;> rw [h] <;> rfl

@[simp] theorem tracerTrace_sweepList (s : GcArena) (c : Nat) :
    (tracerTrace s c).sweepList = s.sweepList := by
  rcases tracerTrace_spec s c with ⟨h, _⟩ | ⟨h, _⟩ | ⟨h, _⟩ <;> rw [h] <;> rfl

@[simp] theorem tracerTrace_sweepPrev (s : GcArena) (c : Nat) :
    (tracerTrace s c).sweepPrev = s.sweepPrev := by
  rcases tracerTrace_spec s c with ⟨h, _⟩ | ⟨h, _⟩ | ⟨h, _⟩ <;> rw [h] <;> rfl

@[simp] theorem tracerTrace_totalAllocated (s : GcArena) (c : Nat) :
    (tracerTrace s c).totalAllocated = s.totalAllocated := by
  rcases tracerTrace_spec s c with ⟨h, _⟩ | ⟨h, _⟩ | ⟨h, _⟩ <;> rw [h] <;> rfl

@[simp] theorem tracerTrace_rememberedSize (s : GcArena) (c : Nat) :
    (tracerTrace s c).rememberedSize = s.rememberedSize := by
  rcases tracerTrace_spec s c with ⟨h, _⟩ | ⟨h, _⟩ | ⟨h, _⟩ <;> rw [h] <;> rfl

@[simp] theorem tracerTrace_freed (s : GcArena) (c : Nat) :
    (tracerTrace s c).freed = s.freed := by
  rcases tracerTrace_spec s c with ⟨h, _⟩ | ⟨h, _⟩ | ⟨h, _⟩ <;> rw [h] <;> rfl

@[simp] theorem tracerTrace_allList (s : GcArena) (c : Nat) :
    allList (tracerTrace s c) = allList s := by
  unfold allList
  rw [tracerTrace_processed, tracerTrace_sweepList]

@[simp] theorem tracerTrace_rootCount (s : GcArena) (c i : Nat) :
    ((tracerTrace s c).boxes i).rootCount = (s.boxes i).rootCount := by
  rcases tracerTrace_spec s c with ⟨h, _⟩ | ⟨h, _⟩ | ⟨h, _⟩ <;> rw [h] <;> simp

@[simp] theorem tracerTrace_size (s : GcArena) (c i : Nat) :
    ((tracerTrace s c).boxes i).size = (s.boxes i).size := by
  rcases tracerTrace_spec s c with ⟨h, _⟩ | ⟨h, _⟩ | ⟨h, _⟩ <;> rw [h] <;> simp

@[simp] theorem tracerTrace_children (s : GcArena) (c i : Nat) :
    ((tracerTrace s c).boxes i).children = (s.boxes i).children := by
  rcases tracerTrace_spec s c with ⟨h, _⟩ | ⟨h, _⟩ | ⟨h, _⟩ <;> rw [h] <;> simp

@[simp] theorem tracerTrace_traceOk (s : GcArena) (c i : Nat) :
    ((tracerTrace s c).boxes i).traceOk = (s.boxes i).traceOk := by
  rcases tracerTrace_spec s c with ⟨h, _⟩ | ⟨h, _⟩ | ⟨h, _⟩ <;> rw [h] <;> simp

/-- Folding tracerTrace over a list of children preserves any predicate
that each single tracerTrace call preserves. -/
theorem foldl_tracerTrace_pres (P : GcArena → Prop)
    (h : ∀ s x, P s → P (tracerTrace s x)) :
    ∀ (l : List Nat) (s : GcArena), P s → P (List.foldl tracerTrace s l) := by
  intro l
  induction l with
  | nil => intro s hP; exact hP
  | cons x xs ih => intro s hP; exact ih _ (h s x hP)

@[simp] theorem traceObject_phase (s : GcArena) (c : Nat) :
    (traceObject s c).phase = s.phase := by
  unfold traceObject
  exact foldl_tracerTrace_pres (fun t => t.phase = s.phase)
    (fun t x h => by simp only [tracerTrace_phase]; exact h) _ s rfl

@[simp] theorem traceObject_processed (s : GcArena) (c : Nat) :
    (traceObject s c).processed = s.processed := by
  unfold traceObject
  exact foldl_tracerTrace_pres (fun t => t.processed = s.processed)
    (fun t x h => by simp only [tracerTrace_processed]; exact h) _ s rfl

@[simp] theorem traceObject_sweepList (s : GcArena) (c : Nat) :
    (traceObject s c).sweepList = s.sweepList := by
  unfold traceObject
  exact foldl_tracerTrace_pres (fun t => t.sweepList = s.sweepList)
    (fun t x h => by simp only [tracerTrace_sweepList]; exact h) _ s rfl

@[simp] theorem traceObject_sweepPrev (s : GcArena) (c : Nat) :
    (traceObject s c).sweepPrev = s.sweepPrev := by
  unfold traceObject
  exact foldl_tracerTrace_pres (fun t => t.sweepPrev = s.sweepPrev)
    (fun t x h => by simp only [tracerTrace_sweepPrev]; exact h) _ s rfl

@[simp] theorem traceObject_totalAllocated (s : GcArena) (c : Nat) :
    (traceObject s c).totalAllocated = s.totalAllocated := by
  unfold traceObject
  exact foldl_tracerTrace_pres (fun t => t.totalAllocated = s.totalAllocated)
    (fun t x h => by simp only [tracerTrace_totalAllocated]; exact h) _ s rfl

@[simp] theorem traceObject_rememberedSize (s : GcArena) (c : Nat) :
    (traceObject s c).rememberedSize = s.rememberedSize := by
  unfold traceObject
  exact foldl_tracerTrace_pres (fun t => t.rememberedSize = s.rememberedSize)
    (fun t x h => by simp only [tracerTrace_rememberedSize]; exact h) _ s rfl

@[simp] theorem traceObject_freed (s : GcArena) (c : Nat) :
    (traceObject s c).freed = s.freed := by
  unfold traceObject
  exact foldl_tracerTrace_pres (fun t => t.freed = s.freed)
    (fun t x h => by simp only [tracerTrace_freed]; exact h) _ s rfl

@[simp] theorem traceObject_allList (s : GcArena) (c : Nat) :
    allList (traceObject s c) = allList s := by
  unfold allList
  rw [traceObject_processed, traceObject_sweepList]

@[simp] theorem traceObject_rootCount (s : GcArena) (c i : Nat) :
    ((traceObject s c).boxes i).rootCount = (s.boxes i).rootCount := by
  unfold traceObject
  exact foldl_tracerTrace_pres
    (fun t => (t.boxes i).rootCount = (s.boxes i).rootCount)
    (fun t x h => by simp only [tracerTrace_rootCount]; exact h) _ s rfl

@[simp] theorem traceObject_size (s : GcArena) (c i : Nat) :
    ((traceObject s c).boxes i).size = (s.boxes i).size := by
  unfold traceObject
  exact foldl_tracerTrace_pres (fun t => (t.boxes i).size = (s.boxes i).size)
    (fun t x h => by simp only [tracerTrace_size]; exact h) _ s rfl

@[simp] theorem traceObject_children (s : GcArena) (c i : Nat) :
    ((traceObject s c).boxes i).children = (s.boxes i).children := by
  unfold traceObject
  exact foldl_tracerTrace_pres
    (fun t => (t.boxes i).children = (s.boxes i).children)
    (fun t x h => by simp only [tracerTrace_children]; exact h) _ s rfl

/-- Inversion of a loop iteration that continues: the seven ways the body
of the do_collection while loop can produce a follow-up state. -/
theorem runIter_next_inv {s : GcArena} {wl : Option ℚ} {bc : Nat}
    {s2 : GcArena} {wl2 : Option ℚ} {bc2 : Nat}
    (h : runIter s wl bc = IterOut.next s2 wl2 bc2) :
    (s.phase = Propagating ∧ s.gray = [] ∧ s2 = toSweep s) ∨
    (∃ c rest, s.phase = Propagating ∧ s.gray = c :: rest ∧
      (boxColor s c = DarkGray ∨ 0 < (s.boxes c).rootCount) ∧
      (s.boxes c).traceOk = true ∧
      s2 = setBoxColor (traceObject { s with gray := rest } c) c Black) ∨
    (∃ c rest, s.phase = Propagating ∧ s.gray = c :: rest ∧
      (boxColor s c = DarkGray ∨ 0 < (s.boxes c).rootCount) ∧
      (s.boxes c).traceOk = false ∧
      s2 = { s with gray := rest ++ [c] }) ∨
    (∃ c rest, s.phase = Propagating ∧ s.gray = c :: rest ∧
      ¬(boxColor s c = DarkGray ∨ 0 < (s.boxes c).rootCount) ∧
      s2 = { s with gray := rest }) ∨
    (s.phase = Sweeping ∧ s.sweepList = [] ∧ s2 = endSweep s) ∨
    (∃ c rest, s.phase = Sweeping ∧ s.sweepList = c :: rest ∧
      boxColor s c = White ∧ s2 = freeCell s c rest) ∨
    (∃ c rest, s.phase = Sweeping ∧ s.sweepList = c :: rest ∧
      boxColor s c ≠ White ∧ s2 = keepCell s c rest) := by
  unfold runIter at h
  rcases hp : s.phase with _ | _ | _ <;> rw [hp] at h <;> dsimp only at h
  · exact absurd h (by simp)
  · rcases hg : s.gray with _ | ⟨c, rest⟩ <;> rw [hg] at h <;> dsimp only at h
    · left
      simp only [IterOut.next.injEq] at h
      exact ⟨rfl, rfl, h.1.symm⟩
    · by_cases hcond : boxColor s c = DarkGray ∨ 0 < (s.boxes c).rootCount
      · rw [if_pos hcond] at h
        by_cases htr : (s.boxes c).traceOk = true
        · rw [if_pos htr] at h
          simp only [IterOut.next.injEq] at h
          right; left
          exact ⟨c, rest, rfl, rfl, hcond, htr, h.1.symm⟩
        · rw [if_neg htr] at h
          right; right; left
          refine ⟨c, rest, rfl, rfl, hcond, by simpa using htr, ?_⟩
          by_cases hlen : bc + 1 = (rest ++ [c]).length
          · rw [if_pos (by simpa using hlen)] at h
            exact absurd h (by simp)
          · rw [if_neg (by simpa using hlen)] at h
            simp only [IterOut.next.injEq] at h
            exact h.1.symm
      · rw [if_neg hcond] at h
        simp only [IterOut.next.injEq] at h
        right; right; right; left
        exact ⟨c, rest, rfl, rfl, hcond, h.1.symm⟩
  · rcases hg : s.sweepList with _ | ⟨c, rest⟩ <;> rw [hg] at h <;> dsimp only at h
    · right; right; right; right; left
      simp only [IterOut.next.injEq] at h
      exact ⟨rfl, rfl, h.1.symm⟩
    · by_cases hw : boxColor s c = White
      · rw [if_pos hw] at h
        simp only [IterOut.next.injEq] at h
        right; right; right; right; right; left
        exact ⟨c, rest, rfl, rfl, hw, h.1.symm⟩
      · rw [if_neg hw] at h
        simp only [IterOut.next.injEq] at h
        right; right; right; right; right; right
        exact ⟨c, rest, rfl, rfl, hw, h.1.symm⟩

/-- Inversion of a loop iteration that breaks out: either the Sleeping arm
returned the state unchanged, or the fully-blocked break fired after a
back-push. -/
theorem runIter_stop_inv {s : GcArena} {wl : Option ℚ} {bc : Nat}
    {s2 : GcArena} {wl2 : Option ℚ}
    (h : runIter s wl bc = IterOut.stop s2 wl2) :
    s2 = s ∨
    (∃ c rest, s.phase = Propagating ∧ s.gray = c :: rest ∧
      (boxColor s c = DarkGray ∨ 0 < (s.boxes c).rootCount) ∧
      (s.boxes c).traceOk = false ∧
      s2 = { s with gray := rest ++ [c] }) := by
  unfold runIter at h
  rcases hp : s.phase with _ | _ | _ <;> rw [hp] at h <;> dsimp only at h
  · simp only [IterOut.stop.injEq] at h
    exact Or.inl h.1.symm
  · rcases hg : s.gray with _ | ⟨c, rest⟩ <;> rw [hg] at h <;> dsimp only at h
    · exact absurd h (by simp)
    · by_cases hcond : boxColor s c = DarkGray ∨ 0 < (s.boxes c).rootCount
      · rw [if_pos hcond] at h
        by_cases htr : (s.boxes c).traceOk = true
        · rw [if_pos htr] at h
          exact absurd h (by simp)
        · rw [if_neg htr] at h
          right
          refine ⟨c, rest, rfl, rfl, hcond, by simpa using htr, ?_⟩
          by_cases hlen : bc + 1 = (rest ++ [c]).length
          · rw [if_pos (by simpa using hlen)] at h
            simp only [IterOut.stop.injEq] at h
            exact h.1.symm
          · rw [if_neg (by simpa using hlen)] at h
            exact absurd h (by simp)
      · rw [if_neg hcond] at h
        exact absurd h (by simp)
  · rcases hg : s.sweepList with _ | ⟨c, rest⟩ <;> rw [hg] at h <;> dsimp only at h
    · exact absurd h (by simp)
    · by_cases hw : boxColor s c = White
      · rw [if_pos hw] at h
        exact absurd h (by simp)
      · rw [if_neg hw] at h
        exact absurd h (by simp)

/-- A predicate preserved by every loop iteration is preserved by the
whole do_collection loop. -/
theorem loopAux_preserve (P : GcArena → Prop)
    (hN : ∀ s wl bc s2 wl2 bc2, P s →
      runIter s wl bc = IterOut.next s2 wl2 bc2 → P s2)
    (hS : ∀ s wl bc s2 wl2, P s →
      runIter s wl bc = IterOut.stop s2 wl2 → P s2) :
    ∀ (fuel : Nat) (s : GcArena) (wl : Option ℚ) (bc : Nat)
      (s2 : GcArena) (wl2 : Option ℚ), P s →
      loopAux fuel s wl bc = some (s2, wl2) → P s2 := by
  intro fuel
  induction fuel with
  | zero =>
    intro s wl bc s2 wl2 _ heq
    exact absurd heq (by simp [loopAux])
  | succ n ih =>
    intro s wl bc s2 wl2 hP heq
    rw [loopAux] at heq
    by_cases hw : wlPos wl
    · rw [if_pos hw] at heq
      rcases hri : runIter s wl bc with ⟨s3, wl3⟩ | ⟨s3, wl3, bc3⟩ <;>
        rw [hri] at heq
      · simp only [Option.some.injEq, Prod.mk.injEq] at heq
        rw [← heq.1]
        exact hS s wl bc s3 wl3 hP hri
      · exact ih s3 wl3 bc3 s2 wl2 (hN s wl bc s3 wl3 bc3 hP hri) heq
    · rw [if_neg hw] at heq
      simp only [Option.some.injEq, Prod.mk.injEq] at heq
      rw [← heq.1]
      exact hP

/-- Frame of finishDebt: only the debt field changes. -/
theorem finishDebt_eq (s : GcArena) (work wl : Option ℚ) :
    ∃ d : ℚ, finishDebt s work wl = { s with allocationDebt := d } := by
  unfold finishDebt
  by_cases h : s.phase = Sleeping
  · exact ⟨0, by rw [if_pos h]⟩
  · rw [if_neg h]
    rcases work with _ | w <;> rcases wl with _ | l
    · exact ⟨0, rfl⟩
    · exact ⟨0, rfl⟩
    · exact ⟨0, rfl⟩
    · exact ⟨max (s.allocationDebt - w + l) 0, rfl⟩

/-- A predicate preserved by iterations and insensitive to the debt field
transfers from the loop to do_collection. -/
theorem doCollection_preserve (P : GcArena → Prop)
    (hN : ∀ s wl bc s2 wl2 bc2, P s →
      runIter s wl bc = IterOut.next s2 wl2 bc2 → P s2)
    (hS : ∀ s wl bc s2 wl2, P s →
      runIter s wl bc = IterOut.stop s2 wl2 → P s2)
    (hD : ∀ s d, P s → P { s with allocationDebt := d }) :
    ∀ (fuel : Nat) (s : GcArena) (work : Option ℚ) (s2 : GcArena), P s →
      doCollection fuel s work = some s2 → P s2 := by
  intro fuel s work s2 hP heq
  unfold doCollection at heq
  rcases hl : loopAux fuel s work 0 with _ | ⟨s3, wl3⟩ <;> rw [hl] at heq
  · exact Option.noConfusion heq
  · simp only [Option.map_some', Option.some.injEq] at heq
    have hP3 := loopAux_preserve P hN hS fuel s work 0 s3 wl3 hP hl
    obtain ⟨d, hd⟩ := finishDebt_eq s3 work wl3
    rw [← heq, hd]
    exact hD s3 d hP3

instance : Inhabited GcArena := ⟨initArena defaultParams⟩

/-- State component of one loop iteration, for exhibiting the intermediate
states a collection passes through. -/
def iterNext (s : GcArena) (wl : Option ℚ) (bc : Nat) : GcArena :=
  match runIter s wl bc with
  | IterOut.stop s2 _ => s2
  | IterOut.next s2 _ _ => s2

/-- An arena holding one freshly allocated cell, id 7, 16 bytes, whose type
reports needs_trace() = false (so the stored needs-trace bit is clear), no
children, trace succeeding.  The allocation happens on a sleeping default
arena, below the wakeup threshold, so no collection runs. -/
def c2arena : GcArena :=
  (allocate 10 (initArena defaultParams) 7 16 false [] true).getD default

/-- An arena built by: allocate cell 1 (100 bytes, successful trace, no
children) on a sleeping default arena, root it, then drop the root pin.
The cell is LightGray, unrooted and sits alone in the gray queue. -/
def c8start : GcArena :=
  rgcDrop (rootOp ((allocate 20 (initArena defaultParams) 1 100 true [] true).getD
    default) 1) 1

/-- First full collection on that arena. -/
def c8afterFirst : Option GcArena := collectGarbage 20 c8start

/-- Second full collection, immediately after, with no mutation between. -/
def c8afterSecond : Option GcArena := c8afterFirst.bind (collectGarbage 20)

/-- C2.  The claim says a marked White cell whose static needs_trace is
false is promoted directly to Black and not enqueued.  The code disagrees:
GcFlags::needs_trace computes flags | 0x8 != 0, which is true for every
flag byte, so the fast path is dead.  Concretely, cell 7 of c2arena is
White with a clear stored needs-trace bit, yet GcTracer::trace promotes it
to DarkGray and pushes it to the front of the gray queue. -/
theorem mark_enqueues_untraceable_white_cell :
    (∀ f : Nat, flagsNeedsTrace f = true) ∧
    boxColor c2arena 7 = GcColor.White ∧
    (c2arena.boxes 7).flags &&& 0x8 = 0 ∧
    boxColor (tracerTrace c2arena 7) 7 = GcColor.DarkGray ∧
    (tracerTrace c2arena 7).gray = [7] :=
  ⟨flagsNeedsTrace_always, by decide, by decide, by decide, by decide⟩

/-- C3.  The claim (and the GcColor documentation in the source) says an
unrooted LightGray cell popped during Propagating returns to White, so the
following sweep frees it.  The code merely drops it from the queue without
touching its flags: after the drop iteration the cell is still LightGray,
the sweep then takes the non-White arm (whose debug assertion of Blackness
it violates), and the cell survives the whole collection as White with
total_allocated unchanged. -/
theorem dropped_lightgray_cell_survives_collection :
    boxColor c8start 1 = GcColor.LightGray ∧
    (c8start.boxes 1).rootCount = 0 ∧
    c8start.gray = [1] ∧
    (iterNext (gcWake c8start) none 0).gray = [] ∧
    boxColor (iterNext (gcWake c8start) none 0) 1 = GcColor.LightGray ∧
    c8afterFirst.map (fun s => allList s) = some [1] ∧
    c8afterFirst.map GcArena.freed = some [] ∧
    c8afterFirst.map (fun s => boxColor s 1) = some GcColor.White ∧
    c8afterFirst.map GcArena.phase = some GcPhase.Sleeping :=
  ⟨by decide, by decide, by decide, by decide, by decide, by decide, by decide,
    by decide, by decide⟩

/-- C8.  The claim says a second collect_garbage right after a completed
one, with no blocked traces and no mutation in between, frees nothing and
leaves total_allocated unchanged.  On c8start (whose only trace succeeds)
the first call leaves the garbage cell alive with total_allocated = 100,
and the second call frees it, dropping total_allocated to 0. -/
theorem second_collection_frees_a_cell :
    (c8start.boxes 1).traceOk = true ∧
    c8afterFirst.map GcArena.totalAllocated = some 100 ∧
    c8afterSecond.map GcArena.totalAllocated = some 0 ∧
    c8afterSecond.map GcArena.freed = some [1] ∧
    c8afterSecond.map (fun s => allList s) = some [] :=
  ⟨by decide, by decide, by decide, by decide, by decide⟩

/-- Characterization of a blocked trace iteration that continues: the cell
is pushed to the back and the blocked counter grows, provided the counter
has not reached the queue length. -/
theorem runIter_blocked_next (s : GcArena) (wl : Option ℚ) (bc : Nat) (c : Nat)
    (rest : List Nat)
    (hp : s.phase = Propagating) (hg : s.gray = c :: rest)
    (hcond : boxColor s c = DarkGray ∨ 0 < (s.boxes c).rootCount)
    (htr : (s.boxes c).traceOk = false)
    (hlen : ¬(bc + 1 = (rest ++ [c]).length)) :
    runIter s wl bc = IterOut.next { s with gray := rest ++ [c] } wl (bc + 1) := by
  unfold runIter
  rw [hp]
  dsimp only
  rw [hg]
  dsimp only
  rw [if_pos hcond, if_neg (by simp [htr]), if_neg hlen]

/-- An arena built by: allocate cell 1 (100 bytes, trace permanently
blocked), root it, allocate cell 2 (100 bytes, trace fine), root it, then
drop the pin of cell 2.  Both cells are LightGray in the gray queue; cell
1 is rooted and blocked, cell 2 is unrooted. -/
def c6start : GcArena :=
  rgcDrop (rootOp ((allocate 20 (rootOp ((allocate 20 (initArena defaultParams)
    1 100 true [] false).getD default) 1) 2 100 true [] true).getD default) 2) 2

/-- The looping state collect_garbage reaches on c6start after three
iterations: cell 2 has been dropped from the queue, cell 1 alone remains,
and the blocked counter is already past the queue length. -/
def c6stuck : GcArena := { gcWake c6start with gray := [1] }

/-- From c6stuck with a blocked counter of at least 2, the do_collection
loop never exits: each iteration pops the single blocked rooted cell,
fails its trace, pushes it back and increments the counter, which being
larger than the queue length of 1 never satisfies the equality break
test. -/
theorem loopAux_c6stuck_diverges :
    ∀ (fuel k : Nat), 2 ≤ k → loopAux fuel c6stuck none k = none := by
  intro fuel
  induction fuel with
  | zero => intro k _; rfl
  | succ n ih =>
    intro k hk
    have hri : runIter c6stuck none k
        = IterOut.next { c6stuck with gray := [] ++ [1] } none (k + 1) :=
      runIter_blocked_next c6stuck none k 1 [] (by decide) (by decide)
        (Or.inr (by decide)) (by decide) (by simp; omega)
    have hstk : ({ c6stuck with gray := [] ++ [1] } : GcArena) = c6stuck := rfl
    rw [hstk] at hri
    show (if wlPos none = true then
        (match runIter c6stuck none k with
         | IterOut.stop s2 wl2 => some (s2, wl2)
         | IterOut.next s2 wl2 bc2 => loopAux n s2 wl2 bc2)
      else some (c6stuck, none)) = none
    rw [hri]
    exact ih (k + 1) (by omega)

/-- C6.  The claim says collect_garbage always terminates, returning early
when the count of consecutively blocked cells equals the gray queue
length.  On c6start it diverges for every fuel bound: the unrooted
LightGray cell is dropped from the queue without resetting the blocked
counter, so the counter (2, then 3, ...) steps over the queue length 1 and
the equality break test never fires again. -/
theorem collect_garbage_diverges_on_blocked_queue :
    ∀ fuel : Nat, collectGarbage fuel c6start = none := by
  intro fuel
  unfold collectGarbage doCollection
  suffices h : loopAux fuel (gcWake c6start) none 0 = none by
    rw [h]; rfl
  rcases fuel with _ | (_ | (_ | n))
  · rfl
  · rfl
  · rfl
  · have heq : loopAux (n + 3) (gcWake c6start) none 0
        = loopAux n c6stuck none 2 := rfl
    rw [heq]
    exact loopAux_c6stuck_diverges n 2 (le_refl 2)

/-- C4.  write_barrier demotes a Black cell to DarkGray and pushes it to
the back of gray exactly when the phase is Propagating; in every other
combination of phase and color it returns the arena bit for bit
unchanged. -/
theorem write_barrier_spec (s : GcArena) (c : Nat) :
    (s.phase = Propagating ∧ boxColor s c = Black →
      writeBarrier s c = { setBoxColor s c DarkGray with gray := s.gray ++ [c] }) ∧
    (¬(s.phase = Propagating ∧ boxColor s c = Black) →
      writeBarrier s c = s) := by
  constructor
  · intro h
    unfold writeBarrier
    rw [if_pos h]
    rfl
  · intro h
    unfold writeBarrier
    rw [if_neg h]

/-- A concrete arena for exercising the write barrier: Propagating phase,
cell 3 Black on the all-list, cell 4 absent (default box, White). -/
def c4arena : GcArena :=
  { initArena defaultParams with
      phase := Propagating
      processed := [3]
      totalAllocated := 8
      boxes := fun i => if i = 3 then ⟨3, 0, 8, [], true⟩ else default }

/-- Witness for C4 at cell 3 (barrier fires) and cell 4 (no-op). -/
theorem write_barrier_spec_witness :
    writeBarrier c4arena 3 =
      { setBoxColor c4arena 3 DarkGray with gray := c4arena.gray ++ [3] } ∧
    writeBarrier c4arena 4 = c4arena :=
  ⟨(write_barrier_spec c4arena 3).1 ⟨rfl, by decide⟩,
   (write_barrier_spec c4arena 4).2 (by decide)⟩

/-- C9.  When the sweep cursor has reached the end of the all-list, the
iteration moves to Sleeping through endSweep: sweep_prev is cleared and
wakeup_total becomes total_allocated plus the larger of min_sleep and the
rounded product remembered_size * pause_factor.  The hypothesis keeps the
rounded product within usize, where the saturating clamp of the f64 cast
is the identity. -/
theorem sweep_end_transition (s : GcArena) (wl : Option ℚ) (bc : Nat)
    (hp : s.phase = Sweeping) (hsw : s.sweepList = [])
    (hclamp : (round ((s.rememberedSize : ℚ) * s.params.pauseFactor)).toNat
      ≤ usizeMax) :
    runIter s wl bc = IterOut.next (endSweep s) wl bc ∧
    (endSweep s).phase = Sleeping ∧
    (endSweep s).sweepPrev = none ∧
    (endSweep s).wakeupTotal = s.totalAllocated +
      Nat.max s.params.minSleep
        (round ((s.rememberedSize : ℚ) * s.params.pauseFactor)).toNat := by
  refine ⟨?_, rfl, rfl, ?_⟩
  · unfold runIter
    rw [hp]
    dsimp only
    rw [hsw]
  · show s.totalAllocated +
      Nat.max (ratToUsize ((s.rememberedSize : ℚ) * s.params.pauseFactor))
        s.params.minSleep = _
    unfold ratToUsize
    rw [Nat.min_eq_left hclamp]
    exact congrArg (s.totalAllocated + ·) (Nat.max_comm _ _)

/-- A concrete arena at the end of a sweep: 3100 live bytes, 3000 bytes
remembered, default parameters. -/
def c9arena : GcArena :=
  { initArena defaultParams with
      phase := Sweeping
      totalAllocated := 3100
      rememberedSize := 3000 }

/-- Witness for C9: with pause_factor 1/2 the rounded product is 1500,
min_sleep 4096 wins the max, and the arena wakes at 3100 + 4096. -/
theorem sweep_end_transition_witness :
    runIter c9arena none 0 = IterOut.next (endSweep c9arena) none 0 ∧
    (endSweep c9arena).phase = Sleeping ∧
    (endSweep c9arena).sweepPrev = none ∧
    (endSweep c9arena).wakeupTotal = 3100 + Nat.max 4096 1500 := by
  have hprod : ((c9arena.rememberedSize : ℚ) * c9arena.params.pauseFactor)
      = ((1500 : ℤ) : ℚ) := by
    norm_num [c9arena, defaultParams, initArena]
  have hrnd : (round ((c9arena.rememberedSize : ℚ)
      * c9arena.params.pauseFactor)).toNat = 1500 := by
    rw [hprod, round_intCast]
    rfl
  have h := sweep_end_transition c9arena none 0 rfl rfl
    (by rw [hrnd]; norm_num [usizeMax])
  refine ⟨h.1, h.2.1, h.2.2.1, ?_⟩
  rw [h.2.2.2, hrnd]
  rfl

/-- C5 as stated asserts that a non-White cell under the sweep cursor is
always Black. -/
def sweptNonWhiteIsBlack : Prop :=
  ∀ (s : GcArena) (c : Nat) (rest : List Nat),
    s.phase = Sweeping → s.sweepList = c :: rest →
    boxColor s c ≠ White → boxColor s c = Black

/-- The state collect_garbage on c8start reaches after two of its loop
iterations (both run, since the budget is infinite): the unrooted
LightGray cell was dropped from the queue without a recolor and the phase
has moved to Sweeping with that cell under the cursor. -/
def c5mid : GcArena := iterNext (iterNext (gcWake c8start) none 0) none 0

/-- Counterexample for C5: in c5mid the cell under the sweep cursor is
LightGray, not Black, refuting the Blackness clause of the claim (and the
debug assertion of the source at the same spot). -/
theorem swept_cell_can_be_lightgray : ¬ sweptNonWhiteIsBlack := by
  intro h
  have h3 : boxColor c5mid 1 = LightGray := by decide
  have := h c5mid 1 [] (by decide) (by decide) (by rw [h3]; decide)
  rw [h3] at this
  exact absurd this (by decide)

/-- C5 amended: the sweep iteration on the cell under the cursor.  A White
cell is unlinked from the all-list (splicing when sweep_prev is set, else
from the list head), its size is removed from total_allocated and from the
work budget, and its box is freed.  A non-White cell (Black in an
undisturbed cycle, but possibly LightGray, see the counterexample) becomes
sweep_prev, adds its size to remembered_size, and is demoted to LightGray
and enqueued at the back when rooted, else demoted to White. -/
theorem sweep_step_spec (s : GcArena) (wl : Option ℚ) (bc : Nat) (c : Nat)
    (rest : List Nat) (hp : s.phase = Sweeping) (hsw : s.sweepList = c :: rest) :
    (boxColor s c = White →
      runIter s wl bc =
        IterOut.next (freeCell s c rest) (wlSub wl (s.boxes c).size) bc ∧
      allList (freeCell s c rest) =
        (if s.sweepPrev.isSome then s.processed else []) ++ rest ∧
      (freeCell s c rest).totalAllocated = s.totalAllocated - (s.boxes c).size ∧
      (freeCell s c rest).freed = c :: s.freed) ∧
    (boxColor s c ≠ White →
      runIter s wl bc = IterOut.next (keepCell s c rest) wl bc ∧
      (keepCell s c rest).sweepPrev = some c ∧
      (keepCell s c rest).rememberedSize = s.rememberedSize + (s.boxes c).size ∧
      (0 < (s.boxes c).rootCount →
        boxColor (keepCell s c rest) c = LightGray ∧
        (keepCell s c rest).gray = s.gray ++ [c]) ∧
      ((s.boxes c).rootCount = 0 →
        boxColor (keepCell s c rest) c = White ∧
        (keepCell s c rest).gray = s.gray)) := by
  constructor
  · intro hw
    refine ⟨?_, rfl, rfl, rfl⟩
    unfold runIter
    rw [hp]
    dsimp only
    rw [hsw]
    dsimp only
    rw [if_pos hw]
  · intro hw
    refine ⟨?_, ?_, ?_, ?_, ?_⟩
    · unfold runIter
      rw [hp]
      dsimp only
      rw [hsw]
      dsimp only
      rw [if_neg hw]
    · unfold keepCell
      by_cases hr : 0 < (s.boxes c).rootCount <;> simp [hr]
    · unfold keepCell
      by_cases hr : 0 < (s.boxes c).rootCount <;> simp [hr]
    · intro hr
      unfold keepCell
      rw [if_pos (by simpa using hr)]
      constructor
      · exact boxColor_setBoxColor_same _ c LightGray
      · simp
    · intro hr
      unfold keepCell
      rw [if_neg (by simp [hr])]
      constructor
      · exact boxColor_setBoxColor_same _ c White
      · simp

/-- Witness for the amended C5: a Sweeping arena with a rooted Black cell
4 (10 bytes) under the cursor followed by a White cell 5. -/
def c5warena : GcArena :=
  { initArena defaultParams with
      phase := Sweeping
      sweepList := [4, 5]
      totalAllocated := 30
      boxes := fun i => if i = 4 then ⟨3, 1, 10, [], true⟩
        else if i = 5 then ⟨0, 0, 20, [], true⟩ else default }

/-- Witness for C5 at c5warena: the rooted Black cell is kept, becomes
sweep_prev, is demoted to LightGray and enqueued at the back. -/
theorem sweep_step_spec_witness :
    runIter c5warena none 0 = IterOut.next (keepCell c5warena 4 [5]) none 0 ∧
    (keepCell c5warena 4 [5]).sweepPrev = some 4 ∧
    (keepCell c5warena 4 [5]).rememberedSize = 10 ∧
    boxColor (keepCell c5warena 4 [5]) 4 = LightGray ∧
    (keepCell c5warena 4 [5]).gray = [4] := by
  have h := (sweep_step_spec c5warena none 0 4 [5] rfl rfl).2 (by decide)
  have hr := h.2.2.2.1 (by decide)
  exact ⟨h.1, h.2.1, h.2.2.1, hr.1, hr.2⟩

/-- Invariant: a rooted cell is never White.  Established by root (which
recolors a White cell LightGray as it pins it) and maintained by every
collector step, it is what keeps the sweep from freeing rooted cells. -/
def rootedNonWhite (s : GcArena) : Prop :=
  ∀ i : Nat, 0 < (s.boxes i).rootCount → boxColor s i ≠ White

/-- Representation invariant of the sweep cursors: during Sweeping a null
sweep_prev means nothing precedes the cursor on the all-list (the source
asserts all == sweep at its head-unlink). -/
def sweepPrevRep (s : GcArena) : Prop :=
  s.phase = Sweeping → s.sweepPrev = none → s.processed = []

theorem rootedNonWhite_setBoxColor (s : GcArena) (c : Nat) (col : GcColor)
    (hcol : col ≠ White) (h : rootedNonWhite s) :
    rootedNonWhite (setBoxColor s c col) := by
  intro i hi
  rw [setBoxColor_rootCount] at hi
  by_cases hic : i = c
  · subst hic
    rw [boxColor_setBoxColor_same]
    exact hcol
  · rw [boxColor_setBoxColor_other _ _ _ _ hic]
    exact h i hi

theorem rootedNonWhite_setWhite_unrooted (s : GcArena) (c : Nat)
    (hc : ¬ 0 < (s.boxes c).rootCount) (h : rootedNonWhite s) :
    rootedNonWhite (setBoxColor s c White) := by
  intro i hi
  rw [setBoxColor_rootCount] at hi
  by_cases hic : i = c
  · subst hic
    exact absurd hi hc
  · rw [boxColor_setBoxColor_other _ _ _ _ hic]
    exact h i hi

theorem rootedNonWhite_tracerTrace (s : GcArena) (c : Nat)
    (h : rootedNonWhite s) : rootedNonWhite (tracerTrace s c) := by
  rcases tracerTrace_spec s c with ⟨he, _⟩ | ⟨he, _⟩ | ⟨he, _⟩ <;> rw [he]
  · exact h
  · exact rootedNonWhite_setBoxColor s c DarkGray (by simp) h
  · exact rootedNonWhite_setBoxColor s c DarkGray (by simp) h

theorem rootedNonWhite_traceObject (s : GcArena) (c : Nat)
    (h : rootedNonWhite s) : rootedNonWhite (traceObject s c) :=
  foldl_tracerTrace_pres rootedNonWhite rootedNonWhite_tracerTrace _ s h

/-- The joint loop invariant used for C1, for a fixed cell c: the color
and cursor invariants, plus c being live, unfreed and rooted. -/
def aliveInv (c : Nat) (s : GcArena) : Prop :=
  rootedNonWhite s ∧ sweepPrevRep s ∧ c ∈ allList s ∧ c ∉ s.freed ∧
    0 < (s.boxes c).rootCount

theorem aliveInv_runIter_next (c : Nat) :
    ∀ (s : GcArena) (wl : Option ℚ) (bc : Nat) (s2 : GcArena)
      (wl2 : Option ℚ) (bc2 : Nat), aliveInv c s →
      runIter s wl bc = IterOut.next s2 wl2 bc2 → aliveInv c s2 := by
  intro s wl bc s2 wl2 bc2 hP hri
  obtain ⟨hW, hRep, hmem, hnf, hroot⟩ := hP
  rcases runIter_next_inv hri with
    ⟨hp, hg, he⟩ | ⟨c0, rest, hp, hg, hcond, htr, he⟩ |
    ⟨c0, rest, hp, hg, hcond, htr, he⟩ | ⟨c0, rest, hp, hg, hcond, he⟩ |
    ⟨hp, hsw, he⟩ | ⟨c0, rest, hp, hsw, hwhite, he⟩ |
    ⟨c0, rest, hp, hsw, hwhite, he⟩ <;> subst he
  · -- Propagating with empty queue: move to Sweeping
    refine ⟨hW, fun _ _ => rfl, ?_, hnf, hroot⟩
    simpa [allList, toSweep] using hmem
  · -- successful trace: children marked, cell turned Black
    refine ⟨?_, ?_, ?_, ?_, ?_⟩
    · exact rootedNonWhite_setBoxColor _ c0 Black (by simp)
        (rootedNonWhite_traceObject _ c0 hW)
    · intro hph
      rw [setBoxColor_phase, traceObject_phase] at hph
      exact absurd (hp ▸ hph) (by simp)
    · simpa [allList] using hmem
    · simpa using hnf
    · simpa using hroot
  · -- blocked trace: re-queued at the back
    exact ⟨hW, hRep, hmem, hnf, hroot⟩
  · -- unrooted LightGray dropped from the queue
    exact ⟨hW, hRep, hmem, hnf, hroot⟩
  · -- end of sweep
    refine ⟨hW, ?_, hmem, hnf, hroot⟩
    intro hph
    exact absurd hph (by simp [endSweep])
  · -- sweep frees a White cell; the rooted c is not White, so not it
    have hcc0 : c ≠ c0 := by
      intro heq
      exact hW c hroot (heq ▸ hwhite)
    refine ⟨hW, ?_, ?_, ?_, hroot⟩
    · intro _ hprev
      unfold freeCell at hprev ⊢
      rcases hsp : s.sweepPrev with _ | p <;> simp [hsp] at hprev ⊢
    · have hmem2 : c ∈ s.processed ++ (c0 :: rest) := by
        rw [← hsw]
        exact hmem
      unfold allList freeCell
      dsimp only
      rcases hsp : s.sweepPrev with _ | p
      · have hpr : s.processed = [] := hRep hp hsp
        rw [hpr] at hmem2
        simp only [List.nil_append, List.mem_cons] at hmem2
        simp only [hsp, Option.isSome_none, Bool.false_eq_true, if_neg,
          List.nil_append]
        exact hmem2.resolve_left hcc0
      · simp only [hsp, Option.isSome_some, if_pos, List.mem_append]
        simp only [List.mem_append, List.mem_cons] at hmem2
        rcases hmem2 with hl | hr
        · exact Or.inl hl
        · exact Or.inr (hr.resolve_left hcc0)
    · intro hin
      unfold freeCell at hin
      simp only [List.mem_cons] at hin
      exact absurd (hin.resolve_left hcc0) hnf
  · -- sweep keeps a non-White cell
    have hkeep :
        aliveInv c (keepCell s c0 rest) := by
      unfold keepCell
      by_cases hr : 0 < (s.boxes c0).rootCount
      · rw [if_pos (by simpa using hr)]
        refine ⟨?_, ?_, ?_, ?_, ?_⟩
        · exact rootedNonWhite_setBoxColor _ c0 LightGray (by simp) hW
        · intro _ hprev
          simp at hprev
        · have : c ∈ s.processed ++ (c0 :: rest) := by rw [← hsw]; exact hmem
          simp only [allList, setBoxColor_processed, setBoxColor_sweepList]
          simp only [List.mem_append, List.mem_cons] at this ⊢
          tauto
        · simpa using hnf
        · simpa using hroot
      · rw [if_neg (by simpa using hr)]
        refine ⟨?_, ?_, ?_, ?_, ?_⟩
        · exact rootedNonWhite_setWhite_unrooted _ c0 (by simpa using hr) hW
        · intro _ hprev
          simp at hprev
        · have : c ∈ s.processed ++ (c0 :: rest) := by rw [← hsw]; exact hmem
          simp only [allList, setBoxColor_processed, setBoxColor_sweepList]
          simp only [List.mem_append, List.mem_cons] at this ⊢
          tauto
        · simpa using hnf
        · simpa using hroot
    exact hkeep

theorem aliveInv_runIter_stop (c : Nat) :
    ∀ (s : GcArena) (wl : Option ℚ) (bc : Nat) (s2 : GcArena)
      (wl2 : Option ℚ), aliveInv c s →
      runIter s wl bc = IterOut.stop s2 wl2 → aliveInv c s2 := by
  intro s wl bc s2 wl2 hP hri
  rcases runIter_stop_inv hri with he | ⟨c0, rest, _, _, _, _, he⟩ <;> subst he
  · exact hP
  · exact hP

theorem aliveInv_debt (c : Nat) :
    ∀ (s : GcArena) (d : ℚ), aliveInv c s →
      aliveInv c { s with allocationDebt := d } := by
  intro s d hP
  exact hP

/-- C1.  A cell with a positive root count survives every do_collection
slice and every collect_garbage call: it stays linked on the all-list and
its box is not freed.  The hypotheses are the reachable-state invariants:
rooted cells are not White, and a null sweep_prev during Sweeping means
the cursor is at the list head. -/
theorem rooted_cells_survive_collection
    (fuel : Nat) (s : GcArena) (work : Option ℚ) (c : Nat)
    (hWF : rootedNonWhite s) (hRep : sweepPrevRep s)
    (hmem : c ∈ allList s) (hnf : c ∉ s.freed)
    (hroot : 0 < (s.boxes c).rootCount) :
    (∀ s2, doCollection fuel s work = some s2 →
      c ∈ allList s2 ∧ c ∉ s2.freed) ∧
    (∀ s2, collectGarbage fuel s = some s2 →
      c ∈ allList s2 ∧ c ∉ s2.freed) := by
  have hP : aliveInv c s := ⟨hWF, hRep, hmem, hnf, hroot⟩
  have hwake : aliveInv c (gcWake s) := by
    unfold gcWake
    by_cases hs : s.phase = Sleeping
    · rw [if_pos hs]
      obtain ⟨h1, _, h3, h4, h5⟩ := hP
      exact ⟨h1, fun hph => by simp at hph, h3, h4, h5⟩
    · rw [if_neg hs]
      exact hP
  constructor
  · intro s2 heq
    have := doCollection_preserve (aliveInv c) (aliveInv_runIter_next c)
      (aliveInv_runIter_stop c) (aliveInv_debt c) fuel s work s2 hP heq
    exact ⟨this.2.2.1, this.2.2.2.1⟩
  · intro s2 heq
    have := doCollection_preserve (aliveInv c) (aliveInv_runIter_next c)
      (aliveInv_runIter_stop c) (aliveInv_debt c) fuel (gcWake s) none s2
      hwake heq
    exact ⟨this.2.2.1, this.2.2.2.1⟩

/-- A concrete arena with one rooted LightGray 100-byte cell, id 1, in the
gray queue: the state root leaves behind after allocate on a fresh default
arena (flag byte 0x9 is LightGray plus the stored needs-trace bit). -/
def c1arena : GcArena :=
  { initArena defaultParams with
      totalAllocated := 100
      processed := [1]
      gray := [1]
      boxes := fun i => if i = 1 then ⟨0x9, 1, 100, [], true⟩ else default }

/-- Result of a full collection on c1arena. -/
def c1res : GcArena := (collectGarbage 20 c1arena).getD default

/-- Witness for C1: the rooted cell 1 of c1arena survives the full
collection. -/
theorem rooted_cells_survive_collection_witness :
    1 ∈ allList c1res ∧ 1 ∉ c1res.freed := by
  have hWF : rootedNonWhite c1arena := by
    intro i hi
    by_cases hic : i = 1
    · subst hic
      decide
    · have hd : c1arena.boxes i = default := by
        simp [c1arena, initArena, hic]
      rw [hd] at hi
      exact absurd hi (by decide)
  have hRep : sweepPrevRep c1arena := by
    intro h
    exact absurd h (by decide)
  have h := (rooted_cells_survive_collection 20 c1arena none 1 hWF hRep
    (by decide) (by decide) (by decide)).2
  rcases heq : collectGarbage 20 c1arena with _ | s2
  · have hs : (collectGarbage 20 c1arena).isSome = true := by decide
    rw [heq] at hs
    exact absurd hs (by decide)
  · have hres : c1res = s2 := by
      unfold c1res
      rw [heq]
      rfl
    rw [hres]
    exact h s2 heq

/-- Sum of the byte sizes of the cells on the all-list. -/
def sumSizes (s : GcArena) : Nat :=
  ((allList s).map (fun i => (s.boxes i).size)).sum

/-- I5 of the specification: total_allocated accounts exactly for the
cells linked on the all-list. -/
def allocInv (s : GcArena) : Prop :=
  s.totalAllocated = sumSizes s

theorem sumSizes_setBoxColor (s : GcArena) (c : Nat) (col : GcColor) :
    sumSizes (setBoxColor s c col) = sumSizes s := by
  unfold sumSizes
  simp

theorem sumSizes_traceObject (s : GcArena) (c : Nat) :
    sumSizes (traceObject s c) = sumSizes s := by
  unfold sumSizes
  simp

theorem sumSizes_updBox (s : GcArena) (c : Nat) (f : GcBox → GcBox)
    (hf : ∀ b, (f b).size = b.size) :
    sumSizes (updBox s c f) = sumSizes s := by
  unfold sumSizes
  rw [updBox_allList]
  congr 1
  apply List.map_congr_left
  intro i _
  rw [updBox_boxes]
  by_cases h : i = c <;> simp [h, hf]

theorem keepCell_totalAllocated (s : GcArena) (c0 : Nat) (rest : List Nat) :
    (keepCell s c0 rest).totalAllocated = s.totalAllocated := by
  unfold keepCell
  dsimp only
  split <;> rfl

/-- The loop invariant for C7: total_allocated exceeds the all-list sizes
by exactly the fixed ghost amount k (k = 0 for a standalone collection;
during the slice inside allocate, k is the size of the cell that has been
counted but not yet linked), plus the cursor representation invariant. -/
def totalInv (k : Nat) (s : GcArena) : Prop :=
  s.totalAllocated = sumSizes s + k ∧ sweepPrevRep s

theorem totalInv_runIter_next (k : Nat) :
    ∀ (s : GcArena) (wl : Option ℚ) (bc : Nat) (s2 : GcArena)
      (wl2 : Option ℚ) (bc2 : Nat), totalInv k s →
      runIter s wl bc = IterOut.next s2 wl2 bc2 → totalInv k s2 := by
  intro s wl bc s2 wl2 bc2 hP hri
  obtain ⟨hmain, hRep⟩ := hP
  rcases runIter_next_inv hri with
    ⟨hp, hg, he⟩ | ⟨c0, rest, hp, hg, hcond, htr, he⟩ |
    ⟨c0, rest, hp, hg, hcond, htr, he⟩ | ⟨c0, rest, hp, hg, hcond, he⟩ |
    ⟨hp, hsw, he⟩ | ⟨c0, rest, hp, hsw, hwhite, he⟩ |
    ⟨c0, rest, hp, hsw, hwhite, he⟩ <;> subst he
  · exact ⟨hmain, fun _ _ => rfl⟩
  · refine ⟨?_, ?_⟩
    · rw [sumSizes_setBoxColor, sumSizes_traceObject,
        setBoxColor_totalAllocated, traceObject_totalAllocated]
      exact hmain
    · intro hph
      rw [setBoxColor_phase, traceObject_phase] at hph
      exact absurd (hp ▸ hph) (by simp)
  · exact ⟨hmain, hRep⟩
  · exact ⟨hmain, hRep⟩
  · refine ⟨hmain, ?_⟩
    intro hph
    exact absurd hph (by simp [endSweep])
  · -- free a White cell: both sides lose its size
    have hsplit : sumSizes s =
        (s.processed.map (fun i => (s.boxes i).size)).sum +
          ((s.boxes c0).size + (rest.map (fun i => (s.boxes i).size)).sum) := by
      unfold sumSizes allList
      rw [hsw]
      simp
    refine ⟨?_, ?_⟩
    · show s.totalAllocated - (s.boxes c0).size = sumSizes _ + k
      unfold sumSizes allList freeCell
      dsimp only
      rcases hsp : s.sweepPrev with _ | p
      · have hpr : s.processed = [] := hRep hp hsp
        rw [hpr] at hsplit
        simp only [List.map_nil, List.sum_nil, Nat.zero_add] at hsplit
        simp only [hsp, Option.isSome_none, Bool.false_eq_true, if_false,
          List.nil_append]
        omega
      · simp only [hsp, Option.isSome_some, if_true, List.map_append,
          List.sum_append]
        simp only [List.map_append, List.sum_append] at hsplit
        omega
    · intro _ hprev
      unfold freeCell at hprev ⊢
      rcases hsp : s.sweepPrev with _ | p <;> simp [hsp] at hprev ⊢
  · -- keep a non-White cell: the all-list is only reordered
    have hsplit : sumSizes s =
        (s.processed.map (fun i => (s.boxes i).size)).sum +
          ((s.boxes c0).size + (rest.map (fun i => (s.boxes i).size)).sum) := by
      unfold sumSizes allList
      rw [hsw]
      simp
    have hsum : sumSizes (keepCell s c0 rest) = sumSizes s := by
      unfold keepCell
      by_cases hr : 0 < (s.boxes c0).rootCount
      · rw [if_pos (by simpa using hr)]
        show sumSizes (setBoxColor _ c0 LightGray) = _
        rw [sumSizes_setBoxColor]
        unfold sumSizes allList
        dsimp only
        rw [hsw]
        simp only [List.map_append, List.sum_append, List.map_cons,
          List.sum_cons, List.map_nil, List.sum_nil]
        omega
      · rw [if_neg (by simpa using hr)]
        rw [sumSizes_setBoxColor]
        unfold sumSizes allList
        dsimp only
        rw [hsw]
        simp only [List.map_append, List.sum_append, List.map_cons,
          List.sum_cons, List.map_nil, List.sum_nil]
        omega
    refine ⟨?_, ?_⟩
    · rw [keepCell_totalAllocated, hsum]
      exact hmain
    · intro _ hprev
      unfold keepCell at hprev
      by_cases hr : 0 < (s.boxes c0).rootCount
      · rw [if_pos (by simpa using hr)] at hprev
        simp at hprev
      · rw [if_neg (by simpa using hr)] at hprev
        simp at hprev

theorem totalInv_runIter_stop (k : Nat) :
    ∀ (s : GcArena) (wl : Option ℚ) (bc : Nat) (s2 : GcArena)
      (wl2 : Option ℚ), totalInv k s →
      runIter s wl bc = IterOut.stop s2 wl2 → totalInv k s2 := by
  intro s wl bc s2 wl2 hP hri
  rcases runIter_stop_inv hri with he | ⟨c0, rest, _, _, _, _, he⟩ <;> subst he
  · exact hP
  · exact hP

theorem totalInv_debt (k : Nat) :
    ∀ (s : GcArena) (d : ℚ), totalInv k s →
      totalInv k { s with allocationDebt := d } := by
  intro s d hP
  exact hP

/-- The all-list never acquires members during a collection, so a fresh id
stays fresh across the slice run inside allocate. -/
def notOnAll (j : Nat) (s : GcArena) : Prop :=
  j ∉ allList s

theorem notOnAll_runIter_next (j : Nat) :
    ∀ (s : GcArena) (wl : Option ℚ) (bc : Nat) (s2 : GcArena)
      (wl2 : Option ℚ) (bc2 : Nat), notOnAll j s →
      runIter s wl bc = IterOut.next s2 wl2 bc2 → notOnAll j s2 := by
  intro s wl bc s2 wl2 bc2 hP hri
  rcases runIter_next_inv hri with
    ⟨hp, hg, he⟩ | ⟨c0, rest, hp, hg, hcond, htr, he⟩ |
    ⟨c0, rest, hp, hg, hcond, htr, he⟩ | ⟨c0, rest, hp, hg, hcond, he⟩ |
    ⟨hp, hsw, he⟩ | ⟨c0, rest, hp, hsw, hwhite, he⟩ |
    ⟨c0, rest, hp, hsw, hwhite, he⟩ <;> subst he <;>
    unfold notOnAll allList at hP ⊢
  · simpa [toSweep] using hP
  · simpa using hP
  · exact hP
  · exact hP
  · exact hP
  · have hP2 : j ∉ s.processed ++ (c0 :: rest) := by rw [← hsw]; exact hP
    unfold freeCell
    dsimp only
    simp only [List.mem_append, List.mem_cons] at hP2 ⊢
    rcases hsp : s.sweepPrev with _ | p <;> simp <;> tauto
  · have hP2 : j ∉ s.processed ++ (c0 :: rest) := by rw [← hsw]; exact hP
    unfold keepCell
    by_cases hr : 0 < (s.boxes c0).rootCount
    · rw [if_pos (by simpa using hr)]
      simp only [List.mem_append, List.mem_cons] at hP2 ⊢
      simp
      tauto
    · rw [if_neg (by simpa using hr)]
      simp only [List.mem_append, List.mem_cons] at hP2 ⊢
      simp
      tauto

theorem notOnAll_runIter_stop (j : Nat) :
    ∀ (s : GcArena) (wl : Option ℚ) (bc : Nat) (s2 : GcArena)
      (wl2 : Option ℚ), notOnAll j s →
      runIter s wl bc = IterOut.stop s2 wl2 → notOnAll j s2 := by
  intro s wl bc s2 wl2 hP hri
  rcases runIter_stop_inv hri with he | ⟨c0, rest, _, _, _, _, he⟩ <;> subst he
  · exact hP
  · exact hP

theorem notOnAll_debt (j : Nat) :
    ∀ (s : GcArena) (d : ℚ), notOnAll j s →
      notOnAll j { s with allocationDebt := d } := by
  intro s d hP
  exact hP

theorem sumSizes_linkCell (s : GcArena) (id sz : Nat) (nt : Bool)
    (ch : List Nat) (tOk : Bool) (hid : id ∉ allList s) :
    sumSizes (linkCell s id sz nt ch tOk) = sz + sumSizes s := by
  have hbox : ∀ i ∈ allList s,
      ((linkCell s id sz nt ch tOk).boxes i) = s.boxes i := by
    intro i hi
    have hne : i ≠ id := fun he => hid (he ▸ hi)
    unfold linkCell
    dsimp only
    split <;> simp [hne]
  have hall : allList (linkCell s id sz nt ch tOk) = id :: allList s := by
    unfold linkCell allList
    dsimp only
    split <;> rfl
  have hself : ((linkCell s id sz nt ch tOk).boxes id).size = sz := by
    unfold linkCell
    dsimp only
    split <;> simp
  unfold sumSizes
  rw [hall]
  simp only [List.map_cons, List.sum_cons, hself]
  exact congrArg (sz + ·)
    (congrArg List.sum (List.map_congr_left (fun i hi => by rw [hbox i hi])))

theorem linkCell_totalAllocated (s : GcArena) (id sz : Nat) (nt : Bool)
    (ch : List Nat) (tOk : Bool) :
    (linkCell s id sz nt ch tOk).totalAllocated = s.totalAllocated := by
  unfold linkCell
  dsimp only
  split <;> rfl

/-- Inversion of allocate: the result links the new cell onto a state X
that is either the input with only the accounting scalars advanced (no
collection slice ran), or the outcome of a debt-budget collection slice on
such a state.  Either way X starts from a state whose heap content (boxes,
lists, queue) is that of s, with total_allocated already counting the new
cell and the phase at most woken to Propagating. -/
theorem allocate_inv {fuel : Nat} {s : GcArena} {id sz : Nat} {nt : Bool}
    {ch : List Nat} {tOk : Bool} {s2 : GcArena}
    (h : allocate fuel s id sz nt ch tOk = some s2) :
    ∃ X : GcArena, s2 = linkCell X id sz nt ch tOk ∧
      ((X.totalAllocated = s.totalAllocated + sz ∧ X.boxes = s.boxes ∧
        X.gray = s.gray ∧ X.processed = s.processed ∧
        X.sweepList = s.sweepList ∧ X.sweepPrev = s.sweepPrev ∧
        (X.phase = s.phase ∨ X.phase = Propagating)) ∨
       (∃ W : GcArena, doCollection fuel W (some W.allocationDebt) = some X ∧
         W.totalAllocated = s.totalAllocated + sz ∧ W.boxes = s.boxes ∧
         W.gray = s.gray ∧ W.processed = s.processed ∧
         W.sweepList = s.sweepList ∧ W.sweepPrev = s.sweepPrev ∧
         (W.phase = s.phase ∨ W.phase = Propagating))) := by
  unfold allocate at h
  dsimp only at h
  by_cases hA : s.phase = Sleeping ∧ s.wakeupTotal < s.totalAllocated + sz
  · rw [if_pos hA] at h
    dsimp only at h
    rw [if_neg (by simp)] at h
    by_cases hG : s.params.collectionGranularity ≤ s.granularityTimer + sz
    · rw [if_pos hG] at h
      rcases hDC : doCollection fuel
          { s with totalAllocated := s.totalAllocated + sz
                   phase := Propagating
                   allocationDebt := s.allocationDebt + (sz : ℚ) +
                     (sz : ℚ) / s.params.timingFactor
                   granularityTimer := 0 }
          (some (s.allocationDebt + (sz : ℚ) +
            (sz : ℚ) / s.params.timingFactor)) with _ | s4 <;>
        rw [hDC] at h
      · exact absurd h (by simp)
      · simp only [Option.some.injEq] at h
        exact ⟨s4, h.symm, Or.inr ⟨_, hDC, rfl, rfl, rfl, rfl, rfl, rfl,
          Or.inr rfl⟩⟩
    · rw [if_neg hG] at h
      simp only [Option.some.injEq] at h
      exact ⟨_, h.symm, Or.inl ⟨rfl, rfl, rfl, rfl, rfl, rfl, Or.inr rfl⟩⟩
  · rw [if_neg hA] at h
    by_cases hS : s.phase = Sleeping
    · rw [if_pos hS] at h
      simp only [Option.some.injEq] at h
      exact ⟨_, h.symm, Or.inl ⟨rfl, rfl, rfl, rfl, rfl, rfl, Or.inl rfl⟩⟩
    · rw [if_neg hS] at h
      by_cases hG : s.params.collectionGranularity ≤ s.granularityTimer + sz
      · rw [if_pos hG] at h
        rcases hDC : doCollection fuel
            { s with totalAllocated := s.totalAllocated + sz
                     allocationDebt := s.allocationDebt + (sz : ℚ) +
                       (sz : ℚ) / s.params.timingFactor
                     granularityTimer := 0 }
            (some (s.allocationDebt + (sz : ℚ) +
              (sz : ℚ) / s.params.timingFactor)) with _ | s4 <;>
          rw [hDC] at h
        · exact absurd h (by simp)
        · simp only [Option.some.injEq] at h
          exact ⟨s4, h.symm, Or.inr ⟨_, hDC, rfl, rfl, rfl, rfl, rfl, rfl,
            Or.inl rfl⟩⟩
      · rw [if_neg hG] at h
        simp only [Option.some.injEq] at h
        exact ⟨_, h.symm, Or.inl ⟨rfl, rfl, rfl, rfl, rfl, rfl, Or.inl rfl⟩⟩

@[simp] theorem grayUpd_totalAllocated (s : GcArena) (g : List Nat) :
    ({ s with gray := g } : GcArena).totalAllocated = s.totalAllocated := rfl

@[simp] theorem sumSizes_grayUpd (s : GcArena) (g : List Nat) :
    sumSizes { s with gray := g } = sumSizes s := rfl

theorem allocInv_rootOp (s : GcArena) (c : Nat) (h : allocInv s) :
    allocInv (rootOp s c) := by
  have h1 : sumSizes (updBox s c (fun b => { b with rootCount := b.rootCount + 1 }))
      = sumSizes s := sumSizes_updBox s c _ (fun b => rfl)
  unfold allocInv rootOp
  dsimp only
  split
  · rw [sumSizes_grayUpd, sumSizes_setBoxColor, h1]
    exact h
  · rw [h1]
    exact h

theorem allocInv_writeBarrier (s : GcArena) (c : Nat) (h : allocInv s) :
    allocInv (writeBarrier s c) := by
  unfold allocInv writeBarrier
  split
  · rw [grayUpd_totalAllocated, sumSizes_grayUpd, sumSizes_setBoxColor,
      setBoxColor_totalAllocated]
    exact h
  · exact h

theorem gcWake_fields (s : GcArena) :
    (gcWake s).totalAllocated = s.totalAllocated ∧
    sumSizes (gcWake s) = sumSizes s ∧
    (gcWake s).boxes = s.boxes ∧ (gcWake s).gray = s.gray ∧
    (gcWake s).processed = s.processed ∧
    (gcWake s).sweepList = s.sweepList ∧
    (gcWake s).sweepPrev = s.sweepPrev := by
  unfold gcWake
  split <;> exact ⟨rfl, rfl, rfl, rfl, rfl, rfl, rfl⟩

theorem sweepPrevRep_gcWake (s : GcArena) (h : sweepPrevRep s) :
    sweepPrevRep (gcWake s) := by
  unfold gcWake
  split
  · intro hph
    exact absurd hph (by simp)
  · exact h

/-- C7.  total_allocated equals the summed byte sizes of the all-list at
the boundary of every public arena operation: it holds for a fresh arena
and is preserved by root, write_barrier, collect_garbage and allocate
(allocate requires the new box address to be fresh, as Box::new
guarantees). -/
theorem total_allocated_invariant :
    (∀ p : GcParams, allocInv (initArena p)) ∧
    (∀ (s : GcArena) (c : Nat), allocInv s → allocInv (rootOp s c)) ∧
    (∀ (s : GcArena) (c : Nat), allocInv s → allocInv (writeBarrier s c)) ∧
    (∀ (s : GcArena) (fuel : Nat) (s2 : GcArena), allocInv s →
      sweepPrevRep s → collectGarbage fuel s = some s2 → allocInv s2) ∧
    (∀ (s : GcArena) (fuel id sz : Nat) (nt : Bool) (ch : List Nat)
      (tOk : Bool) (s2 : GcArena), allocInv s → sweepPrevRep s →
      id ∉ allList s → allocate fuel s id sz nt ch tOk = some s2 →
      allocInv s2) := by
  refine ⟨fun p => rfl, allocInv_rootOp, allocInv_writeBarrier, ?_, ?_⟩
  · intro s fuel s2 h hrep heq
    have h0 : totalInv 0 (gcWake s) := by
      obtain ⟨h1, h2, _⟩ := gcWake_fields s
      exact ⟨by rw [h1, h2]; simpa using h, sweepPrevRep_gcWake s hrep⟩
    have hres := doCollection_preserve (totalInv 0) (totalInv_runIter_next 0)
      (totalInv_runIter_stop 0) (totalInv_debt 0) fuel (gcWake s) none s2
      h0 heq
    obtain ⟨hTot, _⟩ := hres
    unfold allocInv
    omega
  · intro s fuel id sz nt ch tOk s2 h hrep hid heq
    obtain ⟨X, hX, hcases⟩ := allocate_inv heq
    have hfin : X.totalAllocated = sumSizes X + sz → id ∉ allList X →
        allocInv s2 := by
      intro h1 h2
      rw [hX]
      unfold allocInv
      rw [linkCell_totalAllocated, sumSizes_linkCell X id sz nt ch tOk h2, h1]
      omega
    rcases hcases with ⟨ht, hb, _, hpr, hsl, _, _⟩ |
      ⟨W, hDC, ht, hb, _, hpr, hsl, hsp, hph⟩
    · apply hfin
      · have hsum : sumSizes X = sumSizes s := by
          unfold sumSizes allList
          rw [hpr, hsl, hb]
        rw [ht, hsum]
        unfold allocInv at h
        omega
      · have hall : allList X = allList s := by
          unfold allList
          rw [hpr, hsl]
        rw [hall]
        exact hid
    · have hsumW : sumSizes W = sumSizes s := by
        unfold sumSizes allList
        rw [hpr, hsl, hb]
      have hallW : allList W = allList s := by
        unfold allList
        rw [hpr, hsl]
      have hW0 : totalInv sz W := by
        refine ⟨by rw [ht, hsumW]; unfold allocInv at h; omega, ?_⟩
        intro hphS hprev
        rcases hph with hsame | hprop
        · rw [hsp] at hprev
          rw [hpr]
          exact hrep (hsame ▸ hphS) hprev
        · rw [hprop] at hphS
          exact absurd hphS (by simp)
      have hWfresh : notOnAll id W := by
        unfold notOnAll
        rw [hallW]
        exact hid
      have hInvX := doCollection_preserve (totalInv sz)
        (totalInv_runIter_next sz) (totalInv_runIter_stop sz)
        (totalInv_debt sz) fuel W (some W.allocationDebt) X hW0 hDC
      have hfreshX := doCollection_preserve (notOnAll id)
        (notOnAll_runIter_next id) (notOnAll_runIter_stop id)
        (notOnAll_debt id) fuel W (some W.allocationDebt) X hWfresh hDC
      exact hfin hInvX.1 hfreshX

/-- Result of allocating one 100-byte cell on a fresh default arena. -/
def c7res : GcArena :=
  (allocate 20 (initArena defaultParams) 1 100 true [] true).getD default

/-- Witness for C7: the accounting identity survives an allocate on the
fresh default arena. -/
theorem total_allocated_invariant_witness : allocInv c7res := by
  have hrep : sweepPrevRep (initArena defaultParams) := by
    intro hph
    exact absurd hph (by decide)
  rcases heq : allocate 20 (initArena defaultParams) 1 100 true [] true
    with _ | s2
  · have hs : (allocate 20 (initArena defaultParams) 1 100 true [] true).isSome
        = true := by decide
    rw [heq] at hs
    exact absurd hs (by decide)
  · have hres : c7res = s2 := by
      unfold c7res
      rw [heq]
      rfl
    rw [hres]
    exact total_allocated_invariant.2.2.2.2 (initArena defaultParams) 20 1 100
      true [] true s2 rfl hrep (by decide) heq

/-- I2 of the specification, restricted to what the queue discipline
needs: every cell in the gray queue is LightGray or DarkGray. -/
def grayColorInv (s : GcArena) : Prop :=
  ∀ c ∈ s.gray, boxColor s c = LightGray ∨ boxColor s c = DarkGray

/-- During Sweeping, nothing in the gray queue lies below the sweep
cursor: the queue emptied at the Propagating-to-Sweeping transition and
every cell swept afterwards leaves the cursor suffix when pushed. -/
def graySweepDisj (s : GcArena) : Prop :=
  s.phase = Sweeping → ∀ c ∈ s.gray, c ∉ s.sweepList

/-- The joint queue invariant for C10. -/
def grayInv (s : GcArena) : Prop :=
  s.gray.Nodup ∧ grayColorInv s ∧ graySweepDisj s ∧ (allList s).Nodup

theorem boxColor_updBox_flagpres (s : GcArena) (c : Nat) (f : GcBox → GcBox)
    (hf : ∀ b, (f b).flags = b.flags) (i : Nat) :
    boxColor (updBox s c f) i = boxColor s i := by
  unfold boxColor
  rw [updBox_boxes]
  by_cases h : i = c <;> simp [h, hf]

/-- Invariant carried through the child marks of one successful trace of
cell c0: queue distinctness, queue colors, c0 itself staying out of the
queue and non-White. -/
def markInv (c0 : Nat) (s : GcArena) : Prop :=
  s.gray.Nodup ∧ grayColorInv s ∧ c0 ∉ s.gray ∧ boxColor s c0 ≠ White

theorem markInv_tracerTrace (c0 : Nat) (s : GcArena) (x : Nat)
    (h : markInv c0 s) : markInv c0 (tracerTrace s x) := by
  obtain ⟨hnd, hcol, hout, hc0⟩ := h
  rcases tracerTrace_spec s x with ⟨he, _⟩ | ⟨he, hlg⟩ | ⟨he, hwh⟩ <;> rw [he]
  · exact ⟨hnd, hcol, hout, hc0⟩
  · refine ⟨by simpa using hnd, ?_, by simpa using hout, ?_⟩
    · intro c hc
      rw [setBoxColor_gray] at hc
      by_cases hcx : c = x
      · subst hcx
        rw [boxColor_setBoxColor_same]
        exact Or.inr rfl
      · rw [boxColor_setBoxColor_other _ _ _ _ hcx]
        exact hcol c hc
    · by_cases hcx : c0 = x
      · subst hcx
        rw [boxColor_setBoxColor_same]
        simp
      · rw [boxColor_setBoxColor_other _ _ _ _ hcx]
        exact hc0
  · have hxout : x ∉ s.gray := by
      intro hx
      rcases hcol x hx with h1 | h1 <;> rw [hwh] at h1 <;> exact absurd h1 (by simp)
    have hc0x : c0 ≠ x := by
      intro he2
      exact hc0 (he2 ▸ hwh)
    refine ⟨?_, ?_, ?_, ?_⟩
    · show (x :: s.gray).Nodup
      exact List.nodup_cons.mpr ⟨hxout, hnd⟩
    · intro c hc
      rcases List.mem_cons.mp hc with hcx | hcg
      · subst hcx
        show boxColor (setBoxColor s c DarkGray) c = LightGray ∨
          boxColor (setBoxColor s c DarkGray) c = DarkGray
        rw [boxColor_setBoxColor_same]
        exact Or.inr rfl
      · by_cases hcx : c = x
        · subst hcx
          show boxColor (setBoxColor s c DarkGray) c = LightGray ∨
            boxColor (setBoxColor s c DarkGray) c = DarkGray
          rw [boxColor_setBoxColor_same]
          exact Or.inr rfl
        · show boxColor (setBoxColor s x DarkGray) c = LightGray ∨
            boxColor (setBoxColor s x DarkGray) c = DarkGray
          rw [boxColor_setBoxColor_other _ _ _ _ hcx]
          exact hcol c hcg
    · show c0 ∉ x :: s.gray
      intro hmem
      rcases List.mem_cons.mp hmem with h1 | h1
      · exact hc0x h1
      · exact hout h1
    · show boxColor (setBoxColor s x DarkGray) c0 ≠ White
      rw [boxColor_setBoxColor_other _ _ _ _ hc0x]
      exact hc0

theorem markInv_traceObject (c0 : Nat) (s : GcArena) (c : Nat)
    (h : markInv c0 s) : markInv c0 (traceObject s c) :=
  foldl_tracerTrace_pres (markInv c0) (markInv_tracerTrace c0) _ s h

theorem grayInv_runIter_next :
    ∀ (s : GcArena) (wl : Option ℚ) (bc : Nat) (s2 : GcArena)
      (wl2 : Option ℚ) (bc2 : Nat), grayInv s →
      runIter s wl bc = IterOut.next s2 wl2 bc2 → grayInv s2 := by
  intro s wl bc s2 wl2 bc2 hP hri
  obtain ⟨hnd, hcol, hdisj, hall⟩ := hP
  rcases runIter_next_inv hri with
    ⟨hp, hg, he⟩ | ⟨c0, rest, hp, hg, hcond, htr, he⟩ |
    ⟨c0, rest, hp, hg, hcond, htr, he⟩ | ⟨c0, rest, hp, hg, hcond, he⟩ |
    ⟨hp, hsw, he⟩ | ⟨c0, rest, hp, hsw, hwhite, he⟩ |
    ⟨c0, rest, hp, hsw, hwhite, he⟩ <;> subst he
  · -- to Sweeping with an empty queue
    refine ⟨by simpa [toSweep] using hnd, ?_, ?_, ?_⟩
    · intro c hc
      rw [show (toSweep s).gray = s.gray from rfl, hg] at hc
      exact absurd hc (by simp)
    · intro _ c hc
      rw [show (toSweep s).gray = s.gray from rfl, hg] at hc
      exact absurd hc (by simp)
    · simpa [allList, toSweep] using hall
  · -- successful trace of c0
    have hnd2 : rest.Nodup := by
      rw [hg] at hnd
      exact (List.nodup_cons.mp hnd).2
    have hout : c0 ∉ rest := by
      rw [hg] at hnd
      exact (List.nodup_cons.mp hnd).1
    have hc0col : boxColor s c0 = LightGray ∨ boxColor s c0 = DarkGray :=
      hcol c0 (by rw [hg]; exact List.mem_cons_self c0 rest)
    have hM0 : markInv c0 { s with gray := rest } := by
      refine ⟨hnd2, ?_, hout, ?_⟩
      · intro c hc
        exact hcol c (by rw [hg]; exact List.mem_cons_of_mem c0 hc)
      · show boxColor s c0 ≠ White
        rcases hc0col with h1 | h1 <;> rw [h1] <;> simp
    have hM := markInv_traceObject c0 { s with gray := rest } c0 hM0
    obtain ⟨hnd3, hcol3, hout3, _⟩ := hM
    refine ⟨by simpa using hnd3, ?_, ?_, ?_⟩
    · intro c hc
      rw [setBoxColor_gray] at hc
      have hcc0 : c ≠ c0 := fun he2 => hout3 (he2 ▸ hc)
      rw [boxColor_setBoxColor_other _ _ _ _ hcc0]
      exact hcol3 c hc
    · intro hph
      rw [setBoxColor_phase, traceObject_phase] at hph
      exact absurd (hp ▸ hph) (by simp)
    · simpa using hall
  · -- blocked trace: c0 moves to the back
    have hperm : (rest ++ [c0]).Perm (c0 :: rest) := List.perm_append_singleton c0 rest
    refine ⟨?_, ?_, ?_, hall⟩
    · show (rest ++ [c0]).Nodup
      exact hperm.nodup_iff.mpr (hg ▸ hnd)
    · intro c hc
      apply hcol
      rw [hg]
      exact hperm.mem_iff.mp hc
    · intro hph
      exact absurd (hp ▸ hph) (by simp)
  · -- unrooted LightGray dropped
    refine ⟨?_, ?_, ?_, hall⟩
    · show rest.Nodup
      exact (List.nodup_cons.mp (hg ▸ hnd)).2
    · intro c hc
      exact hcol c (by rw [hg]; exact List.mem_cons_of_mem c0 hc)
    · intro hph
      exact absurd (hp ▸ hph) (by simp)
  · -- end of sweep
    refine ⟨hnd, hcol, ?_, hall⟩
    intro hph
    exact absurd hph (by simp [endSweep])
  · -- free a White cell
    refine ⟨hnd, hcol, ?_, ?_⟩
    · intro _ c hc
      have := hdisj hp c hc
      rw [hsw] at this
      intro hmem
      exact this (List.mem_cons_of_mem c0 hmem)
    · unfold allList freeCell
      dsimp only
      have hall2 : (s.processed ++ (c0 :: rest)).Nodup := by
        rw [← hsw]
        exact hall
      rcases hsp : s.sweepPrev with _ | p
      · simp only [hsp, Option.isSome_none, Bool.false_eq_true, if_false,
          List.nil_append]
        exact ((List.nodup_append.mp hall2).2.1).of_cons
      · simp only [hsp, Option.isSome_some, if_true]
        have hsub : (s.processed ++ rest).Sublist (s.processed ++ (c0 :: rest)) :=
          (List.sublist_cons_self c0 rest).append_left s.processed
        exact hall2.sublist hsub
  · -- keep a non-White cell
    have hall2 : (s.processed ++ (c0 :: rest)).Nodup := by
      rw [← hsw]
      exact hall
    have hc0rest : c0 ∉ rest := by
      have := (List.nodup_append.mp hall2).2.1
      exact (List.nodup_cons.mp this).1
    have hc0gray : c0 ∉ s.gray := by
      intro hmem
      have := hdisj hp c0 hmem
      rw [hsw] at this
      exact this (List.mem_cons_self c0 rest)
    have hallKeep : ((s.processed ++ [c0]) ++ rest).Nodup := by
      rw [List.append_assoc]
      exact hall2
    unfold keepCell
    by_cases hr : 0 < (s.boxes c0).rootCount
    · rw [if_pos (by simpa using hr)]
      refine ⟨?_, ?_, ?_, ?_⟩
      · show (s.gray ++ [c0]).Nodup
        exact (List.perm_append_singleton c0 s.gray).nodup_iff.mpr
          (List.nodup_cons.mpr ⟨hc0gray, hnd⟩)
      · intro c hc
        show boxColor (setBoxColor _ c0 LightGray) c = LightGray ∨
          boxColor (setBoxColor _ c0 LightGray) c = DarkGray
        rcases List.mem_cons.mp ((List.perm_append_singleton c0 s.gray).mem_iff.mp
            (by simpa using hc)) with hcc | hcg
        · subst hcc
          rw [boxColor_setBoxColor_same]
          exact Or.inl rfl
        · have hcc0 : c ≠ c0 := fun he2 => hc0gray (he2 ▸ hcg)
          rw [boxColor_setBoxColor_other _ _ _ _ hcc0]
          have := hcol c hcg
          simpa using this
      · intro _ c hc
        show c ∉ rest
        rcases List.mem_cons.mp ((List.perm_append_singleton c0 s.gray).mem_iff.mp
            (by simpa using hc)) with hcc | hcg
        · subst hcc
          exact hc0rest
        · have := hdisj hp c hcg
          rw [hsw] at this
          intro hmem
          exact this (List.mem_cons_of_mem c0 hmem)
      · show (((s.processed ++ [c0]) ++ rest) : List Nat).Nodup
        exact hallKeep
    · rw [if_neg (by simpa using hr)]
      refine ⟨by simpa using hnd, ?_, ?_, ?_⟩
      · intro c hc
        rw [setBoxColor_gray] at hc
        have hcc0 : c ≠ c0 := fun he2 => hc0gray (he2 ▸ hc)
        show boxColor (setBoxColor _ c0 White) c = LightGray ∨
          boxColor (setBoxColor _ c0 White) c = DarkGray
        rw [boxColor_setBoxColor_other _ _ _ _ hcc0]
        have := hcol c hc
        simpa using this
      · intro _ c hc
        rw [setBoxColor_gray] at hc
        show c ∉ rest
        have := hdisj hp c hc
        rw [hsw] at this
        intro hmem
        exact this (List.mem_cons_of_mem c0 hmem)
      · show (((s.processed ++ [c0]) ++ rest) : List Nat).Nodup
        exact hallKeep

theorem grayInv_runIter_stop :
    ∀ (s : GcArena) (wl : Option ℚ) (bc : Nat) (s2 : GcArena)
      (wl2 : Option ℚ), grayInv s →
      runIter s wl bc = IterOut.stop s2 wl2 → grayInv s2 := by
  intro s wl bc s2 wl2 hP hri
  obtain ⟨hnd, hcol, hdisj, hall⟩ := hP
  rcases runIter_stop_inv hri with he | ⟨c0, rest, hp, hg, hcond, htr, he⟩ <;>
    subst he
  · exact ⟨hnd, hcol, hdisj, hall⟩
  · have hperm : (rest ++ [c0]).Perm (c0 :: rest) := List.perm_append_singleton c0 rest
    refine ⟨?_, ?_, ?_, hall⟩
    · show (rest ++ [c0]).Nodup
      exact hperm.nodup_iff.mpr (hg ▸ hnd)
    · intro c hc
      apply hcol
      rw [hg]
      exact hperm.mem_iff.mp hc
    · intro hph
      exact absurd (hp ▸ hph) (by simp)

theorem grayInv_debt :
    ∀ (s : GcArena) (d : ℚ), grayInv s → grayInv { s with allocationDebt := d } := by
  intro s d hP
  exact hP

/-- Freshness of an allocated-but-unlinked address across a collection
slice: it is on no list, not in the queue, and no cell holds it as a
child (no pointer to an unallocated box can exist). -/
def freshFor (id : Nat) (s : GcArena) : Prop :=
  id ∉ allList s ∧ id ∉ s.gray ∧ ∀ j, id ∉ (s.boxes j).children

theorem fresh_fold (id : Nat) :
    ∀ (l : List Nat) (s : GcArena), id ∉ l → id ∉ s.gray →
      id ∉ (List.foldl tracerTrace s l).gray := by
  intro l
  induction l with
  | nil => intro s _ hg; exact hg
  | cons x xs ih =>
    intro s hl hg
    have hxid : id ≠ x := fun he => (he ▸ hl) (List.mem_cons_self x xs)
    have hxs : id ∉ xs := fun hm => hl (List.mem_cons_of_mem x hm)
    apply ih _ hxs
    rcases tracerTrace_spec s x with ⟨he, _⟩ | ⟨he, _⟩ | ⟨he, _⟩ <;> rw [he]
    · exact hg
    · simpa using hg
    · show id ∉ x :: s.gray
      intro hm
      rcases List.mem_cons.mp hm with h1 | h1
      · exact hxid h1
      · exact hg h1

theorem freshFor_runIter_next (id : Nat) :
    ∀ (s : GcArena) (wl : Option ℚ) (bc : Nat) (s2 : GcArena)
      (wl2 : Option ℚ) (bc2 : Nat), freshFor id s →
      runIter s wl bc = IterOut.next s2 wl2 bc2 → freshFor id s2 := by
  intro s wl bc s2 wl2 bc2 hP hri
  obtain ⟨hA, hG, hC⟩ := hP
  rcases runIter_next_inv hri with
    ⟨hp, hg, he⟩ | ⟨c0, rest, hp, hg, hcond, htr, he⟩ |
    ⟨c0, rest, hp, hg, hcond, htr, he⟩ | ⟨c0, rest, hp, hg, hcond, he⟩ |
    ⟨hp, hsw, he⟩ | ⟨c0, rest, hp, hsw, hwhite, he⟩ |
    ⟨c0, rest, hp, hsw, hwhite, he⟩ <;> subst he
  · exact ⟨by simpa [allList, toSweep] using hA, hG, hC⟩
  · refine ⟨by simpa using hA, ?_, ?_⟩
    · show id ∉ (traceObject { s with gray := rest } c0).gray
      unfold traceObject
      apply fresh_fold id _ _ (hC c0)
      show id ∉ rest
      intro hm
      exact hG (hg ▸ List.mem_cons_of_mem c0 hm)
    · intro j
      show id ∉ ((setBoxColor (traceObject { s with gray := rest } c0) c0
        Black).boxes j).children
      rw [setBoxColor_children, traceObject_children]
      exact hC j
  · refine ⟨hA, ?_, hC⟩
    show id ∉ rest ++ [c0]
    intro hm
    rcases List.mem_append.mp hm with h1 | h1
    · exact hG (hg ▸ List.mem_cons_of_mem c0 h1)
    · rcases List.mem_singleton.mp h1 with h2
      exact hG (hg ▸ h2 ▸ List.mem_cons_self c0 rest)
  · refine ⟨hA, ?_, hC⟩
    show id ∉ rest
    intro hm
    exact hG (hg ▸ List.mem_cons_of_mem c0 hm)
  · exact ⟨hA, hG, hC⟩
  · refine ⟨?_, hG, hC⟩
    have hA2 : id ∉ s.processed ++ (c0 :: rest) := by
      rw [← hsw]
      exact hA
    unfold notOnAll at *
    unfold allList freeCell
    dsimp only
    simp only [List.mem_append, List.mem_cons] at hA2 ⊢
    rcases hsp : s.sweepPrev with _ | p <;> simp <;> tauto
  · have hA2 : id ∉ s.processed ++ (c0 :: rest) := by
      rw [← hsw]
      exact hA
    have hidc0 : id ≠ c0 := by
      intro he2
      apply hA2
      rw [he2]
      exact List.mem_append.mpr (Or.inr (List.mem_cons_self c0 rest))
    unfold keepCell
    by_cases hr : 0 < (s.boxes c0).rootCount
    · rw [if_pos (by simpa using hr)]
      refine ⟨?_, ?_, ?_⟩
      · show id ∉ (s.processed ++ [c0]) ++ rest
        simp only [List.mem_append, List.mem_cons, List.not_mem_nil,
          or_false] at hA2 ⊢
        tauto
      · show id ∉ s.gray ++ [c0]
        intro hm
        rcases List.mem_append.mp hm with h1 | h1
        · exact hG h1
        · exact hidc0 (List.mem_singleton.mp h1)
      · intro j
        show id ∉ ((setBoxColor _ c0 LightGray).boxes j).children
        rw [setBoxColor_children]
        exact hC j
    · rw [if_neg (by simpa using hr)]
      refine ⟨?_, by simpa using hG, ?_⟩
      · show id ∉ (s.processed ++ [c0]) ++ rest
        simp only [List.mem_append, List.mem_cons, List.not_mem_nil,
          or_false] at hA2 ⊢
        tauto
      · intro j
        show id ∉ ((setBoxColor _ c0 White).boxes j).children
        rw [setBoxColor_children]
        exact hC j

theorem freshFor_runIter_stop (id : Nat) :
    ∀ (s : GcArena) (wl : Option ℚ) (bc : Nat) (s2 : GcArena)
      (wl2 : Option ℚ), freshFor id s →
      runIter s wl bc = IterOut.stop s2 wl2 → freshFor id s2 := by
  intro s wl bc s2 wl2 hP hri
  obtain ⟨hA, hG, hC⟩ := hP
  rcases runIter_stop_inv hri with he | ⟨c0, rest, hp, hg, hcond, htr, he⟩ <;>
    subst he
  · exact ⟨hA, hG, hC⟩
  · refine ⟨hA, ?_, hC⟩
    show id ∉ rest ++ [c0]
    intro hm
    rcases List.mem_append.mp hm with h1 | h1
    · exact hG (hg ▸ List.mem_cons_of_mem c0 h1)
    · rcases List.mem_singleton.mp h1 with h2
      exact hG (hg ▸ h2 ▸ List.mem_cons_self c0 rest)

theorem freshFor_debt (id : Nat) :
    ∀ (s : GcArena) (d : ℚ), freshFor id s →
      freshFor id { s with allocationDebt := d } := by
  intro s d h
  exact h

theorem linkCell_allList (s : GcArena) (id sz : Nat) (nt : Bool)
    (ch : List Nat) (tOk : Bool) :
    allList (linkCell s id sz nt ch tOk) = id :: allList s := by
  unfold linkCell allList
  dsimp only
  split <;> rfl

theorem linkCell_gray (s : GcArena) (id sz : Nat) (nt : Bool)
    (ch : List Nat) (tOk : Bool) :
    (linkCell s id sz nt ch tOk).gray = s.gray := by
  unfold linkCell
  dsimp only
  split <;> rfl

theorem linkCell_phase (s : GcArena) (id sz : Nat) (nt : Bool)
    (ch : List Nat) (tOk : Bool) :
    (linkCell s id sz nt ch tOk).phase = s.phase := by
  unfold linkCell
  dsimp only
  split <;> rfl

theorem linkCell_sweepList (s : GcArena) (id sz : Nat) (nt : Bool)
    (ch : List Nat) (tOk : Bool) :
    (linkCell s id sz nt ch tOk).sweepList = s.sweepList := by
  unfold linkCell
  dsimp only
  split <;> rfl

theorem linkCell_boxes_other (s : GcArena) (id sz : Nat) (nt : Bool)
    (ch : List Nat) (tOk : Bool) (i : Nat) (hi : i ≠ id) :
    (linkCell s id sz nt ch tOk).boxes i = s.boxes i := by
  unfold linkCell
  dsimp only
  split <;> simp [hi]

theorem grayInv_linkCell (s : GcArena) (id sz : Nat) (nt : Bool)
    (ch : List Nat) (tOk : Bool) (hfa : id ∉ allList s) (hfg : id ∉ s.gray)
    (h : grayInv s) : grayInv (linkCell s id sz nt ch tOk) := by
  obtain ⟨hnd, hcol, hdisj, hall⟩ := h
  refine ⟨?_, ?_, ?_, ?_⟩
  · rw [linkCell_gray]
    exact hnd
  · intro c hc
    rw [linkCell_gray] at hc
    have hcid : c ≠ id := fun he => hfg (he ▸ hc)
    show boxColor _ c = LightGray ∨ boxColor _ c = DarkGray
    unfold boxColor
    rw [linkCell_boxes_other s id sz nt ch tOk c hcid]
    exact hcol c hc
  · intro hph c hc
    rw [linkCell_phase] at hph
    rw [linkCell_gray] at hc
    rw [linkCell_sweepList]
    exact hdisj hph c hc
  · rw [linkCell_allList]
    exact List.nodup_cons.mpr ⟨hfa, hall⟩

theorem grayInv_rootOp (s : GcArena) (c : Nat)
    (hproviso : boxColor s c = White → s.phase = Sweeping → c ∉ s.sweepList)
    (h : grayInv s) : grayInv (rootOp s c) := by
  obtain ⟨hnd, hcol, hdisj, hall⟩ := h
  have hcolupd : ∀ i, boxColor (updBox s c
      (fun b => { b with rootCount := b.rootCount + 1 })) i = boxColor s i :=
    boxColor_updBox_flagpres s c _ (fun b => rfl)
  unfold rootOp
  dsimp only
  split
  · next hw =>
    have hwhite : boxColor s c = White := by
      rw [← hcolupd c]
      exact hw
    have hcgray : c ∉ s.gray := by
      intro hm
      rcases hcol c hm with h1 | h1 <;> rw [hwhite] at h1 <;>
        exact absurd h1 (by simp)
    refine ⟨?_, ?_, ?_, ?_⟩
    · show (s.gray ++ [c]).Nodup
      exact (List.perm_append_singleton c s.gray).nodup_iff.mpr
        (List.nodup_cons.mpr ⟨hcgray, hnd⟩)
    · intro c2 hc2
      show boxColor (setBoxColor _ c LightGray) c2 = LightGray ∨
        boxColor (setBoxColor _ c LightGray) c2 = DarkGray
      rcases List.mem_cons.mp
          ((List.perm_append_singleton c s.gray).mem_iff.mp
            (by simpa using hc2)) with hcc | hcg
      · subst hcc
        rw [boxColor_setBoxColor_same]
        exact Or.inl rfl
      · have hne : c2 ≠ c := fun he => hcgray (he ▸ hcg)
        rw [boxColor_setBoxColor_other _ _ _ _ hne, hcolupd c2]
        exact hcol c2 hcg
    · intro hph c2 hc2
      have hph2 : s.phase = Sweeping := hph
      show c2 ∉ s.sweepList
      rcases List.mem_cons.mp
          ((List.perm_append_singleton c s.gray).mem_iff.mp
            (by simpa using hc2)) with hcc | hcg
      · subst hcc
        exact hproviso hwhite hph2
      · exact hdisj hph2 c2 hcg
    · exact hall
  · refine ⟨hnd, ?_, ?_, hall⟩
    · intro c2 hc2
      show boxColor _ c2 = LightGray ∨ boxColor _ c2 = DarkGray
      rw [hcolupd c2]
      exact hcol c2 hc2
    · intro hph c2 hc2
      exact hdisj hph c2 hc2

theorem grayInv_writeBarrier (s : GcArena) (c : Nat) (h : grayInv s) :
    grayInv (writeBarrier s c) := by
  obtain ⟨hnd, hcol, hdisj, hall⟩ := h
  unfold writeBarrier
  split
  · next hcond =>
    have hcgray : c ∉ s.gray := by
      intro hm
      rcases hcol c hm with h1 | h1 <;> rw [hcond.2] at h1 <;>
        exact absurd h1 (by simp)
    refine ⟨?_, ?_, ?_, hall⟩
    · show (s.gray ++ [c]).Nodup
      exact (List.perm_append_singleton c s.gray).nodup_iff.mpr
        (List.nodup_cons.mpr ⟨hcgray, hnd⟩)
    · intro c2 hc2
      show boxColor (setBoxColor s c DarkGray) c2 = LightGray ∨
        boxColor (setBoxColor s c DarkGray) c2 = DarkGray
      rcases List.mem_cons.mp
          ((List.perm_append_singleton c s.gray).mem_iff.mp
            (by simpa using hc2)) with hcc | hcg
      · subst hcc
        rw [boxColor_setBoxColor_same]
        exact Or.inr rfl
      · have hne : c2 ≠ c := fun he => hcgray (he ▸ hcg)
        rw [boxColor_setBoxColor_other _ _ _ _ hne]
        exact hcol c2 hcg
    · intro hph
      rw [show ({ setBoxColor s c DarkGray with
        gray := (setBoxColor s c DarkGray).gray ++ [c] } : GcArena).phase
          = s.phase from rfl] at hph
      exact absurd (hcond.1 ▸ hph) (by simp)
  · exact ⟨hnd, hcol, hdisj, hall⟩

theorem grayInv_rgcClone (s : GcArena) (c : Nat) (h : grayInv s) :
    grayInv (rgcClone s c) := by
  obtain ⟨hnd, hcol, hdisj, hall⟩ := h
  have hcolupd : ∀ i, boxColor (rgcClone s c) i = boxColor s i :=
    boxColor_updBox_flagpres s c _ (fun b => rfl)
  refine ⟨hnd, ?_, hdisj, hall⟩
  intro c2 hc2
  rw [hcolupd c2]
  exact hcol c2 hc2

theorem grayInv_rgcDrop (s : GcArena) (c : Nat) (h : grayInv s) :
    grayInv (rgcDrop s c) := by
  obtain ⟨hnd, hcol, hdisj, hall⟩ := h
  have hcolupd : ∀ i, boxColor (updBox s c
      (fun b => { b with rootCount := b.rootCount - 1 })) i = boxColor s i :=
    boxColor_updBox_flagpres s c _ (fun b => rfl)
  unfold rgcDrop
  dsimp only
  split
  · refine ⟨hnd, ?_, hdisj, hall⟩
    intro c2 hc2
    show boxColor _ c2 = LightGray ∨ boxColor _ c2 = DarkGray
    rw [show boxColor { updBox s c
        (fun b => { b with rootCount := b.rootCount - 1 }) with
          freed := c :: (updBox s c
            (fun b => { b with rootCount := b.rootCount - 1 })).freed } c2
        = boxColor (updBox s c
          (fun b => { b with rootCount := b.rootCount - 1 })) c2 from rfl]
    rw [hcolupd c2]
    exact hcol c2 hc2
  · refine ⟨hnd, ?_, hdisj, hall⟩
    intro c2 hc2
    rw [hcolupd c2]
    exact hcol c2 hc2

theorem grayInv_gcWake (s : GcArena) (h : grayInv s) : grayInv (gcWake s) := by
  obtain ⟨hnd, hcol, hdisj, hall⟩ := h
  unfold gcWake
  split
  · refine ⟨hnd, hcol, ?_, hall⟩
    intro hph
    exact absurd hph (by simp)
  · exact ⟨hnd, hcol, hdisj, hall⟩

theorem grayInv_collectGarbage (s : GcArena) (fuel : Nat) (s2 : GcArena)
    (h : grayInv s) (heq : collectGarbage fuel s = some s2) : grayInv s2 :=
  doCollection_preserve grayInv grayInv_runIter_next grayInv_runIter_stop
    grayInv_debt fuel (gcWake s) none s2 (grayInv_gcWake s h) heq

theorem grayInv_allocate (s : GcArena) (fuel id sz : Nat) (nt : Bool)
    (ch : List Nat) (tOk : Bool) (s2 : GcArena) (h : grayInv s)
    (hfa : id ∉ allList s) (hfg : id ∉ s.gray)
    (hfc : ∀ j, id ∉ (s.boxes j).children)
    (heq : allocate fuel s id sz nt ch tOk = some s2) : grayInv s2 := by
  obtain ⟨X, hX, hcases⟩ := allocate_inv heq
  have htransfer : ∀ Y : GcArena, Y.boxes = s.boxes → Y.gray = s.gray →
      Y.processed = s.processed → Y.sweepList = s.sweepList →
      (Y.phase = s.phase ∨ Y.phase = Propagating) →
      grayInv Y ∧ freshFor id Y := by
    intro Y hb hg hpr hsl hph
    obtain ⟨hnd, hcol, hdisj, hall⟩ := h
    have hally : allList Y = allList s := by
      unfold allList
      rw [hpr, hsl]
    refine ⟨⟨?_, ?_, ?_, ?_⟩, ?_, ?_, ?_⟩
    · rw [hg]; exact hnd
    · intro c hc
      rw [hg] at hc
      show boxColor Y c = LightGray ∨ boxColor Y c = DarkGray
      unfold boxColor
      rw [hb]
      exact hcol c hc
    · intro hphS c hc
      rw [hg] at hc
      rw [hsl]
      rcases hph with h1 | h1
      · exact hdisj (h1 ▸ hphS) c hc
      · rw [h1] at hphS
        exact absurd hphS (by simp)
    · rw [hally]; exact hall
    · rw [hally]; exact hfa
    · rw [hg]; exact hfg
    · intro j
      rw [hb]
      exact hfc j
  rcases hcases with ⟨_, hb, hg, hpr, hsl, _, hph⟩ |
    ⟨W, hDC, _, hb, hg, hpr, hsl, _, hph⟩
  · obtain ⟨hGX, hFX⟩ := htransfer X hb hg hpr hsl hph
    rw [hX]
    exact grayInv_linkCell X id sz nt ch tOk hFX.1 hFX.2.1 hGX
  · obtain ⟨hGW, hFW⟩ := htransfer W hb hg hpr hsl hph
    have hGX := doCollection_preserve grayInv grayInv_runIter_next
      grayInv_runIter_stop grayInv_debt fuel W (some W.allocationDebt) X hGW hDC
    have hFX := doCollection_preserve (freshFor id) (freshFor_runIter_next id)
      (freshFor_runIter_stop id) (freshFor_debt id) fuel W
      (some W.allocationDebt) X hFW hDC
    rw [hX]
    exact grayInv_linkCell X id sz nt ch tOk hFX.1 hFX.2.1 hGX

/-- The arena states reachable by the public operations, with two
side conditions on the host: allocate receives a genuinely fresh address
(not on the all-list, not in the gray queue, pointed to by no cell —
exactly what a fresh Box gives), and — the amendment of C10 — root is
never called on a White cell that a paused sweep cursor has not yet
passed (one still on the unswept suffix of the all-list); rooting a
White cell above the cursor, such as one freshly allocated or one the
sweep has already demoted, stays allowed. -/
inductive ReachG : GcArena → Prop where
  | init (p : GcParams) : ReachG (initArena p)
  | alloc {s s2 : GcArena} (fuel id sz : Nat) (nt : Bool) (ch : List Nat)
      (tOk : Bool) : ReachG s → id ∉ allList s → id ∉ s.gray →
      (∀ j, id ∉ (s.boxes j).children) →
      allocate fuel s id sz nt ch tOk = some s2 → ReachG s2
  | root {s : GcArena} (c : Nat) : ReachG s →
      (boxColor s c = White → s.phase = Sweeping → c ∉ s.sweepList) →
      ReachG (rootOp s c)
  | wbar {s : GcArena} (c : Nat) : ReachG s → ReachG (writeBarrier s c)
  | rclone {s : GcArena} (c : Nat) : ReachG s → ReachG (rgcClone s c)
  | rdrop {s : GcArena} (c : Nat) : ReachG s → ReachG (rgcDrop s c)
  | collect {s s2 : GcArena} (fuel : Nat) : ReachG s →
      collectGarbage fuel s = some s2 → ReachG s2

theorem grayInv_of_reach {s : GcArena} (h : ReachG s) : grayInv s := by
  induction h with
  | init p =>
    exact ⟨List.nodup_nil, fun c hc => absurd hc (by simp [initArena]),
      fun _ c hc => absurd hc (by simp [initArena]),
      by simp [allList, initArena]⟩
  | alloc fuel id sz nt ch tOk _ hfa hfg hfc heq ih =>
    exact grayInv_allocate _ fuel id sz nt ch tOk _ ih hfa hfg hfc heq
  | root c _ hproviso ih => exact grayInv_rootOp _ c hproviso ih
  | wbar c _ ih => exact grayInv_writeBarrier _ c ih
  | rclone c _ ih => exact grayInv_rgcClone _ c ih
  | rdrop c _ ih => exact grayInv_rgcDrop _ c ih
  | collect fuel _ heq ih => exact grayInv_collectGarbage _ fuel _ ih heq

/-- C10 amended.  In every arena state reachable by the public operations
under the amendment that root is never invoked on a White cell still on
the unswept suffix of a paused sweep (and with fresh allocation
addresses), no cell sits in the gray queue more than once: root
enqueues only a White cell it turns
LightGray, the tracer enqueues only a White cell it turns DarkGray, the
barrier enqueues only a Black cell it turns DarkGray, the sweeper
enqueues a cell it has just moved above the cursor, and a blocked cell is
re-enqueued only after being popped. -/
theorem gray_queue_nodup_of_reach (s : GcArena) (h : ReachG s) :
    s.gray.Nodup :=
  (grayInv_of_reach h).1

/-- Witness for C10: the arena after allocating cell 1 on a fresh default
arena and rooting it is reachable, and its gray queue [1] has no
duplicates. -/
theorem gray_queue_nodup_of_reach_witness :
    (rootOp ((allocate 20 (initArena defaultParams) 1 100 true [] true).getD
      default) 1).gray.Nodup := by
  rcases heq : allocate 20 (initArena defaultParams) 1 100 true [] true
    with _ | s2
  · have hs : (allocate 20 (initArena defaultParams) 1 100 true [] true).isSome
        = true := by decide
    rw [heq] at hs
    exact absurd hs (by decide)
  · simp only [Option.getD_some]
    refine gray_queue_nodup_of_reach _ (ReachG.root 1 ?_ ?_)
    · exact ReachG.alloc 20 1 100 true [] true (ReachG.init defaultParams)
        (by decide) (by decide) (fun j => by simp [initArena]; decide) heq
    · intro _ hph2
      have hph : s2.phase = GcPhase.Sleeping := by
        have : ((allocate 20 (initArena defaultParams) 1 100 true []
            true).map GcArena.phase) = some GcPhase.Sleeping := by decide
        rw [heq] at this
        simpa using this
      rw [hph] at hph2
      exact absurd hph2 (by simp)

/-- C10 as stated: at every reachable observable point the gray queue has
no duplicates, with no restriction on when root may be called. -/
def grayAlwaysNodup : Prop :=
  ∀ s2 : GcArena, ∀ s : GcArena, ∀ c fuel id sz : Nat, ∀ nt tOk : Bool,
    ∀ ch : List Nat,
    (s2 = rootOp s c ∨ allocate fuel s id sz nt ch tOk = some s2 ∨
      collectGarbage fuel s = some s2) →
    s.gray.Nodup → s2.gray.Nodup

/-- Two large cells allocated while the collector sleeps on a fresh
default arena: cell 1 (3000 bytes), then cell 2 (1000 bytes). -/
def c10pre : GcArena :=
  (allocate 50 ((allocate 50 (initArena defaultParams) 1 3000 true []
    true).getD default) 2 1000 true [] true).getD default

/-- The state of the third allocate (cell 3, 100 bytes) just before its
collection slice: total 4100 crossed the wakeup threshold 4096, the debt
holds the 100-byte contribution, and the granularity timer was reset. -/
def c10w : GcArena :=
  { c10pre with
      totalAllocated := 4100
      phase := Propagating
      allocationDebt := c10pre.allocationDebt + ((100 : Nat) : ℚ) +
        ((100 : Nat) : ℚ) / c10pre.params.timingFactor
      granularityTimer := 0 }

/-- The state after that slice: the slice moved to Sweeping, freed cell 2
(1000 bytes, exhausting the 166.67-byte budget) and returned with cell 1
still under the cursor; the debt flushed to zero. -/
def c10mid4 : GcArena :=
  { params := defaultParams
    phase := Sweeping
    totalAllocated := 3100
    rememberedSize := 0
    wakeupTotal := 4096
    allocationDebt := 0
    granularityTimer := 0
    processed := []
    sweepList := [1]
    sweepPrev := none
    gray := []
    boxes := c10pre.boxes
    freed := [2] }

/-- The arena the host sees when the third allocate returns: cell 3
linked at the head, the sweep paused with White cell 1 below the
cursor. -/
def c10link : GcArena := linkCell c10mid4 3 100 true [] true

theorem c10_debt_facts :
    c10pre.allocationDebt = 0 ∧ c10pre.params.timingFactor = 3 / 2 :=
  ⟨rfl, rfl⟩

theorem c10_wl_pos : wlPos (some c10w.allocationDebt) = true := by
  simp only [wlPos, decide_eq_true_eq]
  rw [show c10w.allocationDebt = c10pre.allocationDebt + ((100 : Nat) : ℚ) +
    ((100 : Nat) : ℚ) / c10pre.params.timingFactor from rfl,
    c10_debt_facts.1, c10_debt_facts.2]
  norm_num

theorem c10_wl_neg :
    wlPos (wlSub (some c10w.allocationDebt)
      (((toSweep c10w).boxes 2).size)) = false := by
  rw [show (((toSweep c10w).boxes 2).size) = 1000 from rfl]
  simp only [wlSub, wlPos, decide_eq_false_iff_not]
  rw [show c10w.allocationDebt = c10pre.allocationDebt + ((100 : Nat) : ℚ) +
    ((100 : Nat) : ℚ) / c10pre.params.timingFactor from rfl,
    c10_debt_facts.1, c10_debt_facts.2]
  norm_num

theorem c10_slice :
    doCollection 50 c10w (some c10w.allocationDebt) = some c10mid4 := by
  have hloop : loopAux 50 c10w (some c10w.allocationDebt) 0
      = some (freeCell (toSweep c10w) 2 [1],
          wlSub (some c10w.allocationDebt) (((toSweep c10w).boxes 2).size)) := by
    show (if wlPos (some c10w.allocationDebt) = true then
        (match runIter c10w (some c10w.allocationDebt) 0 with
         | IterOut.stop s2 wl2 => some (s2, wl2)
         | IterOut.next s2 wl2 bc2 => loopAux 49 s2 wl2 bc2)
      else some (c10w, some c10w.allocationDebt)) = _
    rw [c10_wl_pos, if_pos rfl]
    rw [show runIter c10w (some c10w.allocationDebt) 0
        = IterOut.next (toSweep c10w) (some c10w.allocationDebt) 0 from rfl]
    show (if wlPos (some c10w.allocationDebt) = true then
        (match runIter (toSweep c10w) (some c10w.allocationDebt) 0 with
         | IterOut.stop s2 wl2 => some (s2, wl2)
         | IterOut.next s2 wl2 bc2 => loopAux 48 s2 wl2 bc2)
      else some (toSweep c10w, some c10w.allocationDebt)) = _
    rw [c10_wl_pos, if_pos rfl]
    rw [show runIter (toSweep c10w) (some c10w.allocationDebt) 0
        = IterOut.next (freeCell (toSweep c10w) 2 [1])
            (wlSub (some c10w.allocationDebt)
              (((toSweep c10w).boxes 2).size)) 0 from rfl]
    show (if wlPos (wlSub (some c10w.allocationDebt)
          (((toSweep c10w).boxes 2).size)) = true then
        (match runIter (freeCell (toSweep c10w) 2 [1])
            (wlSub (some c10w.allocationDebt)
              (((toSweep c10w).boxes 2).size)) 0 with
         | IterOut.stop s2 wl2 => some (s2, wl2)
         | IterOut.next s2 wl2 bc2 => loopAux 47 s2 wl2 bc2)
      else some (freeCell (toSweep c10w) 2 [1],
        wlSub (some c10w.allocationDebt)
          (((toSweep c10w).boxes 2).size))) = _
    rw [c10_wl_neg]
    simp
  unfold doCollection
  rw [hloop]
  simp only [Option.map_some', Option.some.injEq]
  have hmax : max ((freeCell (toSweep c10w) 2 [1]).allocationDebt -
      c10w.allocationDebt + (c10w.allocationDebt -
        ((((toSweep c10w).boxes 2).size : Nat) : ℚ))) 0 = (0 : ℚ) := by
    rw [show (freeCell (toSweep c10w) 2 [1]).allocationDebt
        = c10w.allocationDebt from rfl]
    rw [show ((((toSweep c10w).boxes 2).size : Nat)) = 1000 from rfl]
    rw [show c10w.allocationDebt = c10pre.allocationDebt + ((100 : Nat) : ℚ) +
      ((100 : Nat) : ℚ) / c10pre.params.timingFactor from rfl,
      c10_debt_facts.1, c10_debt_facts.2]
    norm_num
  show finishDebt (freeCell (toSweep c10w) 2 [1]) (some c10w.allocationDebt)
      (wlSub (some c10w.allocationDebt) (((toSweep c10w).boxes 2).size))
    = c10mid4
  unfold finishDebt
  rw [if_neg (by decide)]
  show ({ freeCell (toSweep c10w) 2 [1] with
    allocationDebt := max ((freeCell (toSweep c10w) 2 [1]).allocationDebt -
      c10w.allocationDebt + (c10w.allocationDebt -
        ((((toSweep c10w).boxes 2).size : Nat) : ℚ))) 0 } : GcArena) = c10mid4
  rw [hmax]
  rfl

/-- Counterexample for C10.  On a reachable arena the gray queue acquires
a duplicate: the third allocate pauses a sweep with White cell 1 below
the cursor; rooting cell 1 at that moment pushes it to gray as
LightGray, and the resumed sweep, finding it non-White, pushes it
again.  After the next collect_garbage returns, cell 1 sits in the queue
twice. -/
theorem gray_queue_duplicate_reachable : ¬ grayAlwaysNodup := by
  have hA : allocate 50 c10pre 3 100 true [] true = some c10link := by
    rw [show allocate 50 c10pre 3 100 true [] true
        = (match doCollection 50 c10w (some c10w.allocationDebt) with
           | none => none
           | some s4 => some (linkCell s4 3 100 true [] true)) from rfl]
    rw [c10_slice]
    rfl
  have hwhite : boxColor c10link 1 = White := by decide
  have hphase : c10link.phase = Sweeping := by decide
  have hdup : (collectGarbage 50 (rootOp c10link 1)).map GcArena.gray
      = some [1, 1] := by decide
  intro h
  rcases heq : collectGarbage 50 (rootOp c10link 1) with _ | sfin
  · rw [heq] at hdup
    exact absurd hdup (by simp)
  · have hnd : sfin.gray.Nodup := by
      apply h sfin (rootOp c10link 1) 0 50 0 0 true true []
        (Or.inr (Or.inr heq))
      apply h (rootOp c10link 1) c10link 1 0 0 0 true true [] (Or.inl rfl)
      have hgl : c10link.gray = [] := by decide
      rw [hgl]
      exact List.nodup_nil
    rw [heq] at hdup
    simp only [Option.map_some', Option.some.injEq] at hdup
    rw [hdup] at hnd
    simp at hnd

end LusterGc
